import Mathlib

/-! sshbuilder: a shallow embedding of `main.go`

`Builder` is a Go struct that is copied by value on every `With*` call.  Two of
its fields (`buildErrors`, `authMethods`) are Go slices: a slice header
(pointer, length, capacity) over a backing array that lives on the heap and is
shared between all copies of the header.  The embedding therefore keeps the
backing arrays in an explicit `World`, next to a trace of the calls made to the
external collaborators (`net.Dial`, `knownhosts.New`, `ssh.Dial`).

External collaborators and the runtime's slice growth policy are parameters
(`Env`).
-/

namespace Sshbuilder

/-! ## Go values -/

/-- A non-nil Go `error` value, as far as this package can observe it: its
`Error()` message and what `Unwrap()` returns.  `errorString` is what
`fmt.Errorf` yields for a format without `%w`, `wrapError` what it yields for a
format with `%w`. -/
inductive GoError where
  | errorString (msg : String)
  | wrapError (msg : String) (err : GoError)
deriving DecidableEq, Repr

/-- The method `Error()` of an error value. -/
def GoError.Error : GoError → String
  | .errorString msg => msg
  | .wrapError msg _ => msg

/-- The method `Unwrap()` of an error value (`errors.Unwrap`). -/
def GoError.Unwrap : GoError → Option GoError
  | .errorString _ => none
  | .wrapError _ err => some err

/-- The call `fmt.Errorf(pfx + "%w", err)` for a non-nil `err`. -/
def errorfW (pfx : String) (err : GoError) : GoError :=
  .wrapError (pfx ++ err.Error) err

/-- A `net.Conn` handle returned by `net.Dial`. -/
structure Conn where
  fd : Nat
deriving DecidableEq, Repr

/-- The value `agent.NewClient(conn)`; `conn` is whatever `net.Dial` returned. -/
structure AgentClient where
  conn : Option Conn
deriving DecidableEq, Repr

/-- A non-nil `ssh.AuthMethod`. -/
inductive AuthMethod where
  | Password (secret : String)
  | PublicKeysCallback (agent : AgentClient)
deriving DecidableEq, Repr

/-- The callback that `knownhosts.New` builds from the files it parsed. -/
structure KnownHosts where
  db : Nat
deriving DecidableEq, Repr

/-- A non-nil `ssh.HostKeyCallback` by provenance: the result of
`ssh.InsecureIgnoreHostKey()` or a callback returned by `knownhosts.New`. -/
inductive HostKeyCallback where
  | InsecureIgnoreHostKey
  | knownhosts (hkc : KnownHosts)
deriving DecidableEq, Repr

/-- The struct `ssh.ClientConfig` (the three fields `Dial` fills in).  `Auth`
holds the contents of the slice at the time of the call; `none` is a nil
interface or func value. -/
structure ClientConfig where
  User : String
  Auth : List (Option AuthMethod)
  HostKeyCallback : Option HostKeyCallback
deriving DecidableEq, Repr

/-- A `*ssh.Client` handle returned by `ssh.Dial`. -/
structure Client where
  id : Nat
deriving DecidableEq, Repr

/-! ## Slices and their backing arrays -/

/-- A Go slice header.  `ptr` names the backing array (its index in the heap);
all slices of this package start at the base of their array.  The nil slice has
`len = 0` and `cap = 0`, so its `ptr` is never dereferenced. -/
structure Slice where
  ptr : Nat
  len : Nat
  cap : Nat
deriving DecidableEq, Repr

/-- The nil slice (zero value of a slice type). -/
def Slice.nil : Slice := ⟨0, 0, 0⟩

/-- The backing arrays allocated so far; a cell is `none` while it holds the
zero value (a nil interface). -/
abbrev Heap (α : Type) := List (List (Option α))

/-- The elements `s[0], ..., s[len-1]` of a slice. -/
def Slice.read {α : Type} (h : Heap α) (s : Slice) : List (Option α) :=
  (h.getD s.ptr []).take s.len

/-- The builtin `append(s, x)`: with spare capacity the element is written in
place into the shared backing array; otherwise a new array of the capacity
chosen by the runtime is allocated and the elements are copied. -/
def goAppend {α : Type} (growslice : Nat → Nat → Nat) (h : Heap α) (s : Slice)
    (x : Option α) : Heap α × Slice :=
  if s.len < s.cap then
    (h.set s.ptr ((h.getD s.ptr []).set s.len x), { s with len := s.len + 1 })
  else
    let newCap := growslice s.cap (s.len + 1)
    (h ++ [s.read h ++ [x] ++ List.replicate (newCap - (s.len + 1)) none],
      ⟨h.length, s.len + 1, newCap⟩)

/-- Representation invariant of a slice header over a heap. -/
def Slice.WF {α : Type} (h : Heap α) (s : Slice) : Prop :=
  s.len ≤ s.cap ∧ s.cap ≤ (h.getD s.ptr []).length

instance {α : Type} (h : Heap α) (s : Slice) : Decidable (s.WF h) := by
  unfold Slice.WF; infer_instance

/-! ## The world outside the builder -/

/-- Calls made to the external collaborators, in order. -/
inductive Event where
  | netDial (network address : String)
  | knownhostsNew (files : List String)
  | sshDial (network addr : String) (config : ClientConfig)
deriving DecidableEq, Repr

/-- The heap and the trace of external calls. -/
structure World where
  errors : Heap GoError
  auths : Heap AuthMethod
  trace : List Event
deriving DecidableEq, Repr

/-- The empty world: nothing allocated, nothing called. -/
def World.empty : World := ⟨[], [], []⟩

/-- What the code takes from outside the repository: the runtime's capacity
choice for a growing slice (`growslice oldCap newLen`, at least `newLen` by the
language specification), the process environment, and the results of
`net.Dial`, `knownhosts.New` and `ssh.Dial` as the raw Go pairs. -/
structure Env where
  growslice : Nat → Nat → Nat
  growslice_fits : ∀ oldCap newLen, newLen ≤ growslice oldCap newLen
  getenv : String → String
  netDial : String → String → Option Conn × Option GoError
  knownhostsNew : List String → Option KnownHosts × Option GoError
  sshDial : String → String → ClientConfig → Option Client × Option GoError

/-! ## The builder (`main.go`) -/

/-- The struct `Builder`. -/
structure Builder where
  buildErrors : Slice
  ignoringErrors : Bool
  username : String
  host : String
  port : Int
  hostPort : String
  knownHostsFile : String
  hostKeyCallback : Option HostKeyCallback
  authMethods : Slice
deriving DecidableEq, Repr

/-- The function `New`: the zero value `Builder{}`. -/
def New : Builder :=
  { buildErrors := Slice.nil, ignoringErrors := false, username := "", host := "",
    port := 0, hostPort := "", knownHostsFile := "", hostKeyCallback := none,
    authMethods := Slice.nil }

/-- The method `GetErrors`: the contents of `b.buildErrors`. -/
def Builder.GetErrors (b : Builder) (w : World) : List (Option GoError) :=
  b.buildErrors.read w.errors

/-- The method `GetError`. -/
def Builder.GetError (b : Builder) (w : World) : Option GoError :=
  let errors := b.GetErrors w
  let errorCount := errors.length
  if errorCount > 0 then errors.getD (errorCount - 1) none else none

/-- The method `SuspendErrors`. -/
def Builder.SuspendErrors (b : Builder) : Builder :=
  { b with ignoringErrors := true }

/-- The method `ResumeErrors`. -/
def Builder.ResumeErrors (b : Builder) : Builder :=
  { b with ignoringErrors := false }

/-- The method `addError`. -/
def Builder.addError (b : Builder) (env : Env) (w : World) (err : Option GoError) :
    World × Builder :=
  if !b.ignoringErrors then
    let r := goAppend env.growslice w.errors b.buildErrors err
    ({ w with errors := r.1 }, { b with buildErrors := r.2 })
  else
    (w, b)

/-- The function `newAgent`.  Its two failing returns are `(nil, err)` and its
only other return is `(agentClient, nil)`. -/
def newAgent (env : Env) (w : World) : World × Except GoError AgentClient :=
  let socket := env.getenv "SSH_AUTH_SOCK"
  if socket = "" then
    (w, .error (.errorString
      "SSH_AUTH_SOCK was not set.  Please start an ssh-agent and add your key to it."))
  else
    let w1 := { w with trace := w.trace ++ [Event.netDial "unix" socket] }
    match env.netDial "unix" socket with
    | (_, some err) => (w1, .error (errorfW "Failed to open SSH_AUTH_SOCK: " err))
    | (conn, none) => (w1, .ok ⟨conn⟩)

/-- The method `WithDefaultAgent`. -/
def Builder.WithDefaultAgent (b : Builder) (env : Env) (w : World) : World × Builder :=
  match newAgent env w with
  | (w1, .error err) => b.addError env w1 (some err)
  | (w1, .ok agent) =>
    let r := goAppend env.growslice w1.auths b.authMethods
      (some (AuthMethod.PublicKeysCallback agent))
    ({ w1 with auths := r.1 }, { b with authMethods := r.2 })

/-- The method `WithUsername`. -/
def Builder.WithUsername (b : Builder) (u : String) : Builder :=
  { b with username := u }

/-- The method `WithHost`. -/
def Builder.WithHost (b : Builder) (h : String) : Builder :=
  { b with hostPort := "", host := h }

/-- The method `WithHostPort`. -/
def Builder.WithHostPort (b : Builder) (str : String) : Builder :=
  { b with host := "", port := 0, hostPort := str }

/-- The method `WithPort`. -/
def Builder.WithPort (b : Builder) (port : Int) : Builder :=
  { b with hostPort := "", port := port }

/-- The method `WithPassword`. -/
def Builder.WithPassword (b : Builder) (env : Env) (w : World) (password : String) :
    World × Builder :=
  let r := goAppend env.growslice w.auths b.authMethods (some (AuthMethod.Password password))
  ({ w with auths := r.1 }, { b with authMethods := r.2 })

/-- The method `WithKnownHostsFiles`. -/
def Builder.WithKnownHostsFiles (b : Builder) (env : Env) (w : World) (khf : List String) :
    World × Builder :=
  let w1 := { w with trace := w.trace ++ [Event.knownhostsNew khf] }
  match env.knownhostsNew khf with
  | (_, some err) => b.addError env w1 (some err)
  | (hkc, none) => (w1, { b with hostKeyCallback := hkc.map HostKeyCallback.knownhosts })

/-- The method `WithInsecureIgnoreHostKey`. -/
def Builder.WithInsecureIgnoreHostKey (b : Builder) : Builder :=
  { b with hostKeyCallback := some HostKeyCallback.InsecureIgnoreHostKey }

/-- The verb `%d` of `fmt.Sprintf` applied to an `int`. -/
def fmtD (n : Int) : String := toString n

/-- The endpoint `Dial` resolves (the local `hostPort` of `Dial`): the combined
string unless it is empty, else `fmt.Sprintf("%s:%d", b.host, b.port)`. -/
def Builder.dialHostPort (b : Builder) : String :=
  if b.hostPort = "" then b.host ++ ":" ++ fmtD b.port else b.hostPort

/-- The `ssh.ClientConfig` literal that `Dial` builds. -/
def Builder.dialConfig (b : Builder) (w : World) : ClientConfig :=
  { User := b.username, Auth := b.authMethods.read w.auths,
    HostKeyCallback := b.hostKeyCallback }

/-- The method `Dial`; the result is the Go pair `(*ssh.Client, error)`. -/
def Builder.Dial (b : Builder) (env : Env) (w : World) :
    World × (Option Client × Option GoError) :=
  match b.GetError w with
  | some err => (w, (none, some err))
  | none =>
    let config := b.dialConfig w
    let hostPort := b.dialHostPort
    let w1 := { w with trace := w.trace ++ [Event.sshDial "tcp" hostPort config] }
    match env.sshDial "tcp" hostPort config with
    | (_, some err) => (w1, (none, some (errorfW "Failed to connect: " err)))
    | (sshc, none) => (w1, (sshc, none))

/-! ## Sequences of configuration calls -/

/-- A configuration call with its arguments. -/
inductive Op where
  | WithDefaultAgent
  | WithUsername (u : String)
  | WithHost (h : String)
  | WithHostPort (str : String)
  | WithPort (port : Int)
  | WithPassword (password : String)
  | WithKnownHostsFiles (khf : List String)
  | WithInsecureIgnoreHostKey
  | SuspendErrors
  | ResumeErrors
deriving DecidableEq, Repr

/-- One configuration call on receiver `b`. -/
def Op.apply (op : Op) (env : Env) (w : World) (b : Builder) : World × Builder :=
  match op with
  | .WithDefaultAgent => b.WithDefaultAgent env w
  | .WithUsername u => (w, b.WithUsername u)
  | .WithHost h => (w, b.WithHost h)
  | .WithHostPort str => (w, b.WithHostPort str)
  | .WithPort port => (w, b.WithPort port)
  | .WithPassword password => b.WithPassword env w password
  | .WithKnownHostsFiles khf => b.WithKnownHostsFiles env w khf
  | .WithInsecureIgnoreHostKey => (w, b.WithInsecureIgnoreHostKey)
  | .SuspendErrors => (w, b.SuspendErrors)
  | .ResumeErrors => (w, b.ResumeErrors)

/-- A chain `b.op1(...).op2(...)...`; each call sees the environment of its
own moment. -/
def runOps (w : World) (b : Builder) : List (Env × Op) → World × Builder
  | [] => (w, b)
  | (env, op) :: rest => runOps (op.apply env w b).1 (op.apply env w b).2 rest

/-- Both slices of a builder are well-formed over the heap. -/
def Builder.WF (b : Builder) (w : World) : Prop :=
  b.buildErrors.WF w.errors ∧ b.authMethods.WF w.auths

instance (b : Builder) (w : World) : Decidable (b.WF w) := by
  unfold Builder.WF; infer_instance

/-- The error a configuration call hands to `addError` in environment `env`,
if it fails there: the error of `newAgent` for `WithDefaultAgent`, the error of
`knownhosts.New` for `WithKnownHostsFiles`; the other calls cannot fail. -/
def Op.failure (op : Op) (env : Env) : Option GoError :=
  match op with
  | .WithDefaultAgent =>
    match (newAgent env World.empty).2 with
    | .error err => some err
    | .ok _ => none
  | .WithKnownHostsFiles khf => (env.knownhostsNew khf).2
  | _ => none

/-- The errors a chain of calls is expected to record, read off the calls
alone: the failure of every failing call made while recording is enabled, in
call order.  `ignoring` is the flag at the start of the chain. -/
def recorded (ignoring : Bool) : List (Env × Op) → List GoError
  | [] => []
  | (_, .SuspendErrors) :: rest => recorded true rest
  | (_, .ResumeErrors) :: rest => recorded false rest
  | (env, op) :: rest =>
    match op.failure env with
    | some err => if ignoring then recorded ignoring rest else err :: recorded ignoring rest
    | none => recorded ignoring rest

/-- What every builder a program can hold satisfies: well-formed slices whose
elements are all non-nil (`addError` and `append` are only ever handed non-nil
values). -/
def Builder.Valid (b : Builder) (w : World) : Prop :=
  b.WF w ∧ none ∉ b.GetErrors w ∧ none ∉ b.authMethods.read w.auths

instance (b : Builder) (w : World) : Decidable (b.Valid w) := by
  unfold Builder.Valid; infer_instance

/-! ## Concrete environments -/

/-- Capacity growth of the Go runtime for small slices (`nextslicecap` below
its threshold of 256 elements): the needed length if it exceeds twice the old
capacity, else twice the old capacity. -/
def nextslicecap (oldCap newLen : Nat) : Nat :=
  if 2 * oldCap < newLen then newLen else 2 * oldCap

/-- An environment without agent socket, whose known-hosts parser rejects every
file list and whose transport refuses every connection. -/
def envDown : Env :=
  { growslice := nextslicecap
    growslice_fits := by intro oldCap newLen; unfold nextslicecap; split <;> omega
    getenv := fun _ => ""
    netDial := fun _ _ => (none, some (.errorString "connection refused"))
    knownhostsNew := fun khf =>
      (none, some (.errorString ("open " ++ khf.headD "" ++ ": no such file or directory")))
    sshDial := fun _ _ _ => (none, some (.errorString "connection refused")) }

/-- An environment with an agent socket, a known-hosts parser that accepts and
a transport that connects. -/
def envUp : Env :=
  { growslice := nextslicecap
    growslice_fits := by intro oldCap newLen; unfold nextslicecap; split <;> omega
    getenv := fun name => if name = "SSH_AUTH_SOCK" then "/tmp/agent.sock" else ""
    netDial := fun _ _ => (some ⟨3⟩, none)
    knownhostsNew := fun _ => (some ⟨1⟩, none)
    sshDial := fun _ _ _ => (some ⟨7⟩, none) }

/-- The receiver of the fork examples:
`New().WithPassword("a").WithPassword("b").WithPassword("c")`, whose
`authMethods` has length 3 and capacity 4. -/
def threePasswords : World × Builder :=
  runOps World.empty New
    [(envDown, .WithPassword "a"), (envDown, .WithPassword "b"), (envDown, .WithPassword "c")]

/-- A builder with three recorded errors: three calls of `WithKnownHostsFiles`
on files that do not exist; `buildErrors` has length 3 and capacity 4. -/
def threeErrors : World × Builder :=
  runOps World.empty New
    [(envDown, .WithKnownHostsFiles ["k1"]), (envDown, .WithKnownHostsFiles ["k2"]),
     (envDown, .WithKnownHostsFiles ["k3"])]

/-- The builder `New().WithDefaultAgent()` built without an agent socket: one
recorded error. -/
def noAgent : World × Builder := New.WithDefaultAgent envDown World.empty

/-- The error `newAgent` returns when `SSH_AUTH_SOCK` is unset or empty. -/
def errNoSocket : GoError :=
  .errorString "SSH_AUTH_SOCK was not set.  Please start an ssh-agent and add your key to it."

/-- The host-key policy after one call, read off the call alone: the
accept-any-key callback after `WithInsecureIgnoreHostKey`, the callback that
`knownhosts.New` returns after a `WithKnownHostsFiles` on which it returns no
error, and the policy as it was after every other call. -/
def policyStep (policy : Option HostKeyCallback) (env : Env) (op : Op) :
    Option HostKeyCallback :=
  match op with
  | .WithInsecureIgnoreHostKey => some HostKeyCallback.InsecureIgnoreHostKey
  | .WithKnownHostsFiles khf =>
    match (env.knownhostsNew khf).2 with
    | some _ => policy
    | none => (env.knownhostsNew khf).1.map HostKeyCallback.knownhosts
  | _ => policy

/-- The host-key policy expected after a chain of calls: the last one set. -/
def policyAfter (policy : Option HostKeyCallback) :
    List (Env × Op) → Option HostKeyCallback
  | [] => policy
  | (env, op) :: rest => policyAfter (policyStep policy env op) rest

/-- No call of the chain is a `WithKnownHostsFiles` on which `knownhosts.New`
returns no error. -/
def noKnownHostsSet (steps : List (Env × Op)) : Prop :=
  ∀ s ∈ steps, ∀ khf, s.2 = Op.WithKnownHostsFiles khf → (s.1.knownhostsNew khf).2 ≠ none

/-- The chain `.WithPassword(p1)...WithPassword(pn)`, each call with the
environment of its moment. -/
def passwordCalls (pws : List (Env × String)) : List (Env × Op) :=
  pws.map (fun x => (x.1, Op.WithPassword x.2))

/-! ## Lists, slices and `append` -/

theorem getD_set_self {β : Type} (h : List (List β)) (p : Nat) (a : List β) (hp : p < h.length) :
    (h.set p a).getD p [] = a := by
  simp [List.getD_eq_getElem?_getD, List.getElem?_set, hp]

theorem getD_set_ne {β : Type} (h : List (List β)) (p q : Nat) (a : List β) (hq : q ≠ p) :
    (h.set p a).getD q [] = h.getD q [] := by
  simp [List.getD_eq_getElem?_getD, List.getElem?_set, Ne.symm hq]

theorem getD_append_length {β : Type} (h : List (List β)) (a : List β) :
    (h ++ [a]).getD h.length [] = a := by
  simp [List.getD_eq_getElem?_getD]

theorem getD_append_lt {β : Type} (h : List (List β)) (a : List β) (q : Nat) (hq : q < h.length) :
    (h ++ [a]).getD q [] = h.getD q [] := by
  simp [List.getD_eq_getElem?_getD, List.getElem?_append_left hq]

theorem take_succ_set {β : Type} (l : List β) (n : Nat) (x : β) (hn : n < l.length) :
    (l.set n x).take (n + 1) = l.take n ++ [x] := by
  induction l generalizing n with
  | nil => simp at hn
  | cons a l ih =>
    cases n with
    | zero => simp
    | succ n => simp at hn; simp [ih n hn]

theorem take_set_of_le {β : Type} (l : List β) (m n : Nat) (x : β) (hmn : m ≤ n) :
    (l.set n x).take m = l.take m := by
  induction l generalizing m n with
  | nil => simp
  | cons a l ih =>
    cases n with
    | zero => simp at hmn; simp [hmn]
    | succ n =>
      cases m with
      | zero => simp
      | succ m => simp at hmn; simp [ih m n hmn]

theorem length_pos_of_getD {β : Type} (h : List (List β)) (p : Nat)
    (hp : 0 < (h.getD p []).length) : p < h.length := by
  by_contra hcon
  have hnil : h.getD p [] = [] := by
    simp [List.getD_eq_getElem?_getD, List.getElem?_eq_none (Nat.le_of_not_lt hcon)]
  rw [hnil] at hp
  exact Nat.lt_irrefl 0 hp

theorem goAppend_len {α : Type} (g : Nat → Nat → Nat) (h : Heap α) (s : Slice) (x : Option α) :
    (goAppend g h s x).2.len = s.len + 1 := by
  unfold goAppend; split <;> rfl

theorem goAppend_read {α : Type} (g : Nat → Nat → Nat) (h : Heap α) (s : Slice) (x : Option α)
    (hs : s.WF h) : (goAppend g h s x).2.read (goAppend g h s x).1 = s.read h ++ [x] := by
  obtain ⟨hlen, hcap⟩ := hs
  unfold goAppend
  split
  · next hlt =>
    have hp : s.ptr < List.length h := length_pos_of_getD h s.ptr (by omega)
    simp only [Slice.read]
    rw [getD_set_self h s.ptr _ hp]
    exact take_succ_set _ _ _ (by omega)
  · next hge =>
    have hl : (s.read h).length = s.len := by
      simp only [Slice.read, List.length_take]; omega
    have key : ∀ a r : List (Option α), (a ++ [x] ++ r).take (a.length + 1) = a ++ [x] := by
      intro a r
      exact List.take_left' (by simp)
    have hk := key (s.read h) (List.replicate (g s.cap (s.len + 1) - (s.len + 1)) none)
    rw [hl] at hk
    simp only [Slice.read] at hk ⊢
    rw [getD_append_length]
    exact hk

theorem goAppend_WF {α : Type} (g : Nat → Nat → Nat) (hg : ∀ c n, n ≤ g c n) (h : Heap α)
    (s : Slice) (x : Option α) (hs : s.WF h) : (goAppend g h s x).2.WF (goAppend g h s x).1 := by
  obtain ⟨hlen, hcap⟩ := hs
  unfold goAppend
  split
  · next hlt =>
    have hp : s.ptr < List.length h := length_pos_of_getD h s.ptr (by omega)
    refine ⟨by simp only; omega, ?_⟩
    simp only
    rw [getD_set_self h s.ptr _ hp]
    simpa using hcap
  · next hge =>
    have hfit := hg s.cap (s.len + 1)
    refine ⟨hfit, ?_⟩
    simp only
    rw [getD_append_length]
    simp only [Slice.read, List.length_append, List.length_take, List.length_replicate,
      List.length_singleton]
    omega

theorem goAppend_frame_WF {α : Type} (g : Nat → Nat → Nat) (h : Heap α) (s t : Slice)
    (x : Option α) (ht : t.WF h) : t.WF (goAppend g h s x).1 := by
  obtain ⟨hlen, hcap⟩ := ht
  refine ⟨hlen, ?_⟩
  unfold goAppend
  split
  · simp only
    by_cases hpt : t.ptr = s.ptr
    · by_cases hp : s.ptr < List.length h
      · rw [hpt, getD_set_self h s.ptr _ hp]
        rw [hpt] at hcap
        simpa using hcap
      · rw [List.set_eq_of_length_le (Nat.le_of_not_lt hp)]
        exact hcap
    · rw [getD_set_ne h s.ptr t.ptr _ hpt]
      exact hcap
  · simp only
    by_cases hp : t.ptr < List.length h
    · rw [getD_append_lt h _ t.ptr hp]
      exact hcap
    · have : t.cap = 0 := by
        by_contra hne
        exact hp (length_pos_of_getD h t.ptr (by omega))
      omega

theorem goAppend_frame_read {α : Type} (g : Nat → Nat → Nat) (h : Heap α) (s t : Slice)
    (x : Option α) (ht : t.WF h) (hsep : t.ptr ≠ s.ptr ∨ t.len ≤ s.len ∨ ¬ s.len < s.cap) :
    t.read (goAppend g h s x).1 = t.read h := by
  obtain ⟨hlen, hcap⟩ := ht
  unfold goAppend
  split
  · next hlt =>
    simp only [Slice.read]
    by_cases hpt : t.ptr = s.ptr
    · have hle : t.len ≤ s.len := by
        rcases hsep with h1 | h1 | h1
        · exact absurd hpt h1
        · exact h1
        · exact absurd hlt h1
      by_cases hp : s.ptr < List.length h
      · rw [hpt, getD_set_self h s.ptr _ hp]
        exact take_set_of_le _ _ _ _ hle
      · rw [List.set_eq_of_length_le (Nat.le_of_not_lt hp)]
    · rw [getD_set_ne h s.ptr t.ptr _ hpt]
  · simp only [Slice.read]
    by_cases hp : t.ptr < List.length h
    · rw [getD_append_lt h _ t.ptr hp]
    · have hc : t.cap = 0 := by
        by_contra hne
        exact hp (length_pos_of_getD h t.ptr (by omega))
      have hl : t.len = 0 := by omega
      simp [hl]

/-! ## Error recording -/

theorem newAgent_heap (env : Env) (w : World) :
    (newAgent env w).1.errors = w.errors ∧ (newAgent env w).1.auths = w.auths := by
  unfold newAgent
  simp only
  split
  · exact ⟨rfl, rfl⟩
  · split <;> exact ⟨rfl, rfl⟩

theorem newAgent_result (env : Env) (w w' : World) : (newAgent env w).2 = (newAgent env w').2 := by
  unfold newAgent
  simp only
  split
  · rfl
  · split <;> rfl

theorem newAgent_no_socket (env : Env) (w : World) (hsock : env.getenv "SSH_AUTH_SOCK" = "") :
    newAgent env w = (w, .error (.errorString
      "SSH_AUTH_SOCK was not set.  Please start an ssh-agent and add your key to it.")) := by
  unfold newAgent
  simp [hsock]

theorem addError_recording (b : Builder) (env : Env) (w : World) (err : Option GoError)
    (hrec : b.ignoringErrors = false) :
    b.addError env w err =
      ({ w with errors := (goAppend env.growslice w.errors b.buildErrors err).1 },
       { b with buildErrors := (goAppend env.growslice w.errors b.buildErrors err).2 }) := by
  unfold Builder.addError
  simp [hrec]

theorem addError_suspended (b : Builder) (env : Env) (w : World) (err : Option GoError)
    (hsus : b.ignoringErrors = true) : b.addError env w err = (w, b) := by
  unfold Builder.addError
  simp [hsus]

theorem addError_GetErrors (b : Builder) (env : Env) (w : World) (err : Option GoError)
    (hwf : b.buildErrors.WF w.errors) (hrec : b.ignoringErrors = false) :
    (b.addError env w err).2.GetErrors (b.addError env w err).1 = b.GetErrors w ++ [err] := by
  rw [addError_recording b env w err hrec]
  exact goAppend_read env.growslice w.errors b.buildErrors err hwf

theorem WithDefaultAgent_of_error (b : Builder) (env : Env) (w : World) (err : GoError)
    (hf : Op.failure .WithDefaultAgent env = some err) :
    b.WithDefaultAgent env w = b.addError env (newAgent env w).1 (some err) := by
  have h2 := newAgent_result env w World.empty
  unfold Op.failure at hf
  simp only at hf
  rw [← h2] at hf
  unfold Builder.WithDefaultAgent
  rcases hna : newAgent env w with ⟨w1, res⟩
  rw [hna] at hf
  cases res with
  | error e =>
    simp only at hf
    simp only [Option.some.injEq] at hf
    simp only [hf]
  | ok a => simp at hf

theorem WithDefaultAgent_of_ok (b : Builder) (env : Env) (w : World)
    (hf : Op.failure .WithDefaultAgent env = none) :
    (b.WithDefaultAgent env w).1.errors = w.errors ∧
    (b.WithDefaultAgent env w).2.buildErrors = b.buildErrors ∧
    (b.WithDefaultAgent env w).2.ignoringErrors = b.ignoringErrors := by
  have h2 := newAgent_result env w World.empty
  have h1 := (newAgent_heap env w).1
  unfold Op.failure at hf
  simp only at hf
  rw [← h2] at hf
  unfold Builder.WithDefaultAgent
  rcases hna : newAgent env w with ⟨w1, res⟩
  rw [hna] at hf h1
  cases res with
  | error e => simp at hf
  | ok a => exact ⟨h1, rfl, rfl⟩

theorem WithKnownHostsFiles_of_error (b : Builder) (env : Env) (w : World) (khf : List String)
    (err : GoError) (hf : (env.knownhostsNew khf).2 = some err) :
    b.WithKnownHostsFiles env w khf =
      b.addError env { w with trace := w.trace ++ [Event.knownhostsNew khf] } (some err) := by
  unfold Builder.WithKnownHostsFiles
  rcases hk : env.knownhostsNew khf with ⟨hkc, e⟩
  rw [hk] at hf
  simp only at hf
  subst hf
  rfl

theorem WithKnownHostsFiles_of_ok (b : Builder) (env : Env) (w : World) (khf : List String)
    (hf : (env.knownhostsNew khf).2 = none) :
    b.WithKnownHostsFiles env w khf =
      ({ w with trace := w.trace ++ [Event.knownhostsNew khf] },
       { b with hostKeyCallback := (env.knownhostsNew khf).1.map HostKeyCallback.knownhosts }) := by
  unfold Builder.WithKnownHostsFiles
  rcases hk : env.knownhostsNew khf with ⟨hkc, e⟩
  rw [hk] at hf
  simp only at hf
  subst hf
  rfl

/-- A failing call made while recording is enabled appends its error. -/
theorem apply_failure_recording (op : Op) (env : Env) (w : World) (b : Builder) (err : GoError)
    (hf : op.failure env = some err) (hrec : b.ignoringErrors = false) :
    (op.apply env w b).1.errors = (goAppend env.growslice w.errors b.buildErrors (some err)).1 ∧
    (op.apply env w b).2 =
      { b with buildErrors := (goAppend env.growslice w.errors b.buildErrors (some err)).2 } ∧
    (op.apply env w b).1.auths = w.auths := by
  cases op with
  | WithDefaultAgent =>
    simp only [Op.apply]
    rw [WithDefaultAgent_of_error b env w err hf, addError_recording _ _ _ _ hrec]
    simp only [(newAgent_heap env w).1, (newAgent_heap env w).2, and_self]
  | WithKnownHostsFiles khf =>
    simp only [Op.apply]
    rw [WithKnownHostsFiles_of_error b env w khf err hf, addError_recording _ _ _ _ hrec]
    simp only [and_self]
  | _ => simp [Op.failure] at hf

/-- A failing call made while recording is suspended returns its receiver and
leaves both heaps alone. -/
theorem apply_failure_suspended (op : Op) (env : Env) (w : World) (b : Builder) (err : GoError)
    (hf : op.failure env = some err) (hsus : b.ignoringErrors = true) :
    (op.apply env w b).1.errors = w.errors ∧ (op.apply env w b).2 = b ∧
    (op.apply env w b).1.auths = w.auths := by
  cases op with
  | WithDefaultAgent =>
    simp only [Op.apply]
    rw [WithDefaultAgent_of_error b env w err hf, addError_suspended _ _ _ _ hsus]
    simp only [(newAgent_heap env w).1, (newAgent_heap env w).2, and_self]
  | WithKnownHostsFiles khf =>
    simp only [Op.apply]
    rw [WithKnownHostsFiles_of_error b env w khf err hf, addError_suspended _ _ _ _ hsus]
    simp only [and_self]
  | _ => simp [Op.failure] at hf

/-- A call that does not fail leaves the error heap and the error slice alone. -/
theorem apply_no_failure (op : Op) (env : Env) (w : World) (b : Builder)
    (hf : op.failure env = none) :
    (op.apply env w b).1.errors = w.errors ∧
    (op.apply env w b).2.buildErrors = b.buildErrors := by
  cases op with
  | WithDefaultAgent =>
    simp only [Op.apply]
    exact ⟨(WithDefaultAgent_of_ok b env w hf).1, (WithDefaultAgent_of_ok b env w hf).2.1⟩
  | WithKnownHostsFiles khf =>
    simp only [Op.apply]
    rw [WithKnownHostsFiles_of_ok b env w khf hf]
    exact ⟨rfl, rfl⟩
  | WithPassword p => exact ⟨rfl, rfl⟩
  | _ => exact ⟨rfl, rfl⟩

/-- Only `SuspendErrors` and `ResumeErrors` change the flag. -/
theorem apply_ignoringErrors (op : Op) (env : Env) (w : World) (b : Builder) :
    (op.apply env w b).2.ignoringErrors =
      match op with
      | .SuspendErrors => true
      | .ResumeErrors => false
      | _ => b.ignoringErrors := by
  cases op with
  | WithDefaultAgent =>
    simp only [Op.apply]
    cases hf : Op.failure .WithDefaultAgent env with
    | none => exact (WithDefaultAgent_of_ok b env w hf).2.2
    | some err =>
      rw [WithDefaultAgent_of_error b env w err hf]
      unfold Builder.addError
      split <;> rfl
  | WithKnownHostsFiles khf =>
    simp only [Op.apply]
    cases hf : (env.knownhostsNew khf).2 with
    | none => rw [WithKnownHostsFiles_of_ok b env w khf hf]
    | some err =>
      rw [WithKnownHostsFiles_of_error b env w khf err hf]
      unfold Builder.addError
      split <;> rfl
  | _ => rfl

theorem recorded_cons (ignoring : Bool) (env : Env) (op : Op) (rest : List (Env × Op))
    (h1 : op ≠ .SuspendErrors) (h2 : op ≠ .ResumeErrors) :
    recorded ignoring ((env, op) :: rest) =
      match op.failure env with
      | some err => if ignoring then recorded ignoring rest else err :: recorded ignoring rest
      | none => recorded ignoring rest := by
  cases op <;> first | exact absurd rfl h1 | exact absurd rfl h2 | rfl

theorem apply_ignoringErrors_of_ne (op : Op) (env : Env) (w : World) (b : Builder)
    (h1 : op ≠ .SuspendErrors) (h2 : op ≠ .ResumeErrors) :
    (op.apply env w b).2.ignoringErrors = b.ignoringErrors := by
  rw [apply_ignoringErrors]
  cases op <;> first | exact absurd rfl h1 | exact absurd rfl h2 | rfl

/-- One call: the error sequence of the result is the receiver's, followed by
the error of the call if it fails while recording is enabled. -/
theorem apply_GetErrors (op : Op) (env : Env) (w : World) (b : Builder)
    (hwf : b.buildErrors.WF w.errors) :
    (op.apply env w b).2.GetErrors (op.apply env w b).1 =
      b.GetErrors w ++ (recorded b.ignoringErrors [(env, op)]).map some ∧
    (op.apply env w b).2.buildErrors.WF (op.apply env w b).1.errors := by
  by_cases h1 : op = .SuspendErrors
  · subst h1; simpa [Op.apply, recorded, Builder.SuspendErrors, Builder.GetErrors] using hwf
  by_cases h2 : op = .ResumeErrors
  · subst h2; simpa [Op.apply, recorded, Builder.ResumeErrors, Builder.GetErrors] using hwf
  rw [recorded_cons _ _ _ _ h1 h2]
  cases hf : op.failure env with
  | none =>
    obtain ⟨he, hb⟩ := apply_no_failure op env w b hf
    simp only [Builder.GetErrors, he, hb, recorded, List.map_nil, List.append_nil, true_and]
    exact hwf
  | some err =>
    cases hign : b.ignoringErrors with
    | true =>
      obtain ⟨he, hb, _⟩ := apply_failure_suspended op env w b err hf hign
      simp only [Builder.GetErrors, he, hb, recorded, if_true, List.map_nil, List.append_nil,
        true_and]
      exact hwf
    | false =>
      obtain ⟨he, hb, _⟩ := apply_failure_recording op env w b err hf hign
      simp only [Builder.GetErrors, he, hb, recorded, Bool.false_eq_true, if_false, List.map_cons,
        List.map_nil]
      exact ⟨goAppend_read env.growslice w.errors b.buildErrors (some err) hwf,
        goAppend_WF env.growslice env.growslice_fits w.errors b.buildErrors (some err) hwf⟩

/-- A chain of calls: the error sequence of the result is the receiver's,
followed by the errors of the calls that fail while recording is enabled. -/
theorem runOps_GetErrors (steps : List (Env × Op)) (w : World) (b : Builder)
    (hwf : b.buildErrors.WF w.errors) :
    (runOps w b steps).2.GetErrors (runOps w b steps).1 =
      b.GetErrors w ++ (recorded b.ignoringErrors steps).map some ∧
    (runOps w b steps).2.buildErrors.WF (runOps w b steps).1.errors := by
  induction steps generalizing w b with
  | nil => simpa [runOps, recorded] using hwf
  | cons step rest ih =>
    obtain ⟨env, op⟩ := step
    obtain ⟨hget, hwf1⟩ := apply_GetErrors op env w b hwf
    obtain ⟨hget2, hwf2⟩ := ih (op.apply env w b).1 (op.apply env w b).2 hwf1
    simp only [runOps]
    refine ⟨?_, hwf2⟩
    rw [hget2, hget, List.append_assoc, ← List.map_append]
    congr 2
    by_cases h1 : op = .SuspendErrors
    · subst h1; rfl
    by_cases h2 : op = .ResumeErrors
    · subst h2; rfl
    rw [apply_ignoringErrors_of_ne op env w b h1 h2, recorded_cons _ _ _ _ h1 h2,
      recorded_cons _ _ _ _ h1 h2]
    cases op.failure env with
    | none => rfl
    | some err => cases b.ignoringErrors <;> rfl

/-! ## Validity is kept by every call, for the result and for every other builder -/

theorem mem_take_set {β : Type} (l : List β) (m n : Nat) (x y : β)
    (hy : y ∈ (l.set n x).take m) : y ∈ l.take m ∨ y = x := by
  rw [List.set_take] at hy
  exact List.mem_or_eq_of_mem_set hy

/-- After `append(s, x)`, another slice holds elements it held before, or `x`. -/
theorem goAppend_frame_mem {α : Type} (g : Nat → Nat → Nat) (h : Heap α) (s t : Slice)
    (x y : Option α) (ht : t.WF h) (hy : y ∈ t.read (goAppend g h s x).1) :
    y ∈ t.read h ∨ y = x := by
  by_cases hsep : t.ptr ≠ s.ptr ∨ t.len ≤ s.len ∨ ¬ s.len < s.cap
  · rw [goAppend_frame_read g h s t x ht hsep] at hy
    exact Or.inl hy
  · have hpt : t.ptr = s.ptr := by
      by_contra hne
      exact hsep (Or.inl hne)
    have hlt : s.len < s.cap := by
      by_contra hne
      exact hsep (Or.inr (Or.inr hne))
    unfold goAppend at hy
    rw [if_pos hlt] at hy
    simp only [Slice.read] at hy ⊢
    by_cases hp : s.ptr < List.length h
    · rw [hpt, getD_set_self h s.ptr _ hp] at hy
      rw [hpt]
      exact mem_take_set _ _ _ _ _ hy
    · rw [List.set_eq_of_length_le (Nat.le_of_not_lt hp)] at hy
      exact Or.inl hy

theorem valid_New (w : World) : New.Valid w := by
  simp [Builder.Valid, Builder.WF, Slice.WF, New, Slice.nil, Builder.GetErrors, Slice.read]

/-- How a call touches the error heap: not at all, or by one `append` of a
non-nil error to the receiver's slice. -/
theorem apply_errors_cases (op : Op) (env : Env) (w : World) (b : Builder) :
    ((op.apply env w b).1.errors = w.errors ∧ (op.apply env w b).2.buildErrors = b.buildErrors) ∨
    ∃ err : GoError,
      (op.apply env w b).1.errors = (goAppend env.growslice w.errors b.buildErrors (some err)).1 ∧
      (op.apply env w b).2.buildErrors =
        (goAppend env.growslice w.errors b.buildErrors (some err)).2 := by
  cases hf : op.failure env with
  | none => exact Or.inl (apply_no_failure op env w b hf)
  | some err =>
    cases hign : b.ignoringErrors with
    | true =>
      obtain ⟨he, hb, _⟩ := apply_failure_suspended op env w b err hf hign
      exact Or.inl ⟨he, by rw [hb]⟩
    | false =>
      obtain ⟨he, hb, _⟩ := apply_failure_recording op env w b err hf hign
      exact Or.inr ⟨err, he, by rw [hb]⟩

/-- How a call touches the heap of auth methods: not at all, or by one
`append` of a non-nil method to the receiver's slice. -/
theorem apply_auths_cases (op : Op) (env : Env) (w : World) (b : Builder) :
    ((op.apply env w b).1.auths = w.auths ∧ (op.apply env w b).2.authMethods = b.authMethods) ∨
    ∃ m : AuthMethod,
      (op.apply env w b).1.auths = (goAppend env.growslice w.auths b.authMethods (some m)).1 ∧
      (op.apply env w b).2.authMethods =
        (goAppend env.growslice w.auths b.authMethods (some m)).2 := by
  cases hf : op.failure env with
  | some err =>
    cases hign : b.ignoringErrors with
    | true =>
      obtain ⟨_, hb, ha⟩ := apply_failure_suspended op env w b err hf hign
      exact Or.inl ⟨ha, by rw [hb]⟩
    | false =>
      obtain ⟨_, hb, ha⟩ := apply_failure_recording op env w b err hf hign
      exact Or.inl ⟨ha, by rw [hb]⟩
  | none =>
    cases op with
    | WithDefaultAgent =>
      have h2 := newAgent_result env w World.empty
      have h1 := (newAgent_heap env w).2
      unfold Op.failure at hf
      simp only at hf
      rw [← h2] at hf
      simp only [Op.apply]
      unfold Builder.WithDefaultAgent
      rcases hna : newAgent env w with ⟨w1, res⟩
      rw [hna] at hf h1
      cases res with
      | error e => simp at hf
      | ok a =>
        simp only at h1
        simp only [h1]
        exact Or.inr ⟨_, rfl, rfl⟩
    | WithKnownHostsFiles khf =>
      simp only [Op.apply]
      rw [WithKnownHostsFiles_of_ok b env w khf hf]
      exact Or.inl ⟨rfl, rfl⟩
    | WithPassword p => exact Or.inr ⟨_, rfl, rfl⟩
    | _ => exact Or.inl ⟨rfl, rfl⟩

/-- The result of a call on a valid builder is valid. -/
theorem valid_apply (op : Op) (env : Env) (w : World) (b : Builder) (hb : b.Valid w) :
    (op.apply env w b).2.Valid (op.apply env w b).1 := by
  obtain ⟨⟨hwe, hwa⟩, hne, hna⟩ := hb
  simp only [Builder.Valid, Builder.WF, Builder.GetErrors] at hne ⊢
  have he := apply_errors_cases op env w b
  have ha := apply_auths_cases op env w b
  refine ⟨⟨?_, ?_⟩, ?_, ?_⟩
  · rcases he with ⟨h1, h2⟩ | ⟨err, h1, h2⟩
    · rw [h1, h2]; exact hwe
    · rw [h1, h2]; exact goAppend_WF _ env.growslice_fits _ _ _ hwe
  · rcases ha with ⟨h1, h2⟩ | ⟨m, h1, h2⟩
    · rw [h1, h2]; exact hwa
    · rw [h1, h2]; exact goAppend_WF _ env.growslice_fits _ _ _ hwa
  · rcases he with ⟨h1, h2⟩ | ⟨err, h1, h2⟩
    · rw [h1, h2]; exact hne
    · rw [h1, h2, goAppend_read _ _ _ _ hwe]
      simpa using hne
  · rcases ha with ⟨h1, h2⟩ | ⟨m, h1, h2⟩
    · rw [h1, h2]; exact hna
    · rw [h1, h2, goAppend_read _ _ _ _ hwa]
      simpa using hna

/-- A call on one builder keeps every other valid builder valid. -/
theorem valid_apply_other (op : Op) (env : Env) (w : World) (b c : Builder) (hc : c.Valid w) :
    c.Valid (op.apply env w b).1 := by
  obtain ⟨⟨hwe, hwa⟩, hne, hna⟩ := hc
  simp only [Builder.Valid, Builder.WF, Builder.GetErrors] at hne ⊢
  have he := apply_errors_cases op env w b
  have ha := apply_auths_cases op env w b
  refine ⟨⟨?_, ?_⟩, ?_, ?_⟩
  · rcases he with ⟨h1, _⟩ | ⟨err, h1, _⟩
    · rw [h1]; exact hwe
    · rw [h1]; exact goAppend_frame_WF _ _ _ _ _ hwe
  · rcases ha with ⟨h1, _⟩ | ⟨m, h1, _⟩
    · rw [h1]; exact hwa
    · rw [h1]; exact goAppend_frame_WF _ _ _ _ _ hwa
  · rcases he with ⟨h1, _⟩ | ⟨err, h1, _⟩
    · rw [h1]; exact hne
    · rw [h1]
      intro hmem
      rcases goAppend_frame_mem _ _ _ _ _ _ hwe hmem with h | h
      · exact hne h
      · simp at h
  · rcases ha with ⟨h1, _⟩ | ⟨m, h1, _⟩
    · rw [h1]; exact hna
    · rw [h1]
      intro hmem
      rcases goAppend_frame_mem _ _ _ _ _ _ hwa hmem with h | h
      · exact hna h
      · simp at h

/-! ## C1: `Dial` short-circuits on a build error -/

theorem GetError_eq_getLast (b : Builder) (w : World) :
    b.GetError w = ((b.GetErrors w).getLast?).getD none := by
  unfold Builder.GetError
  simp only
  cases hl : b.GetErrors w using List.reverseRecOn with
  | nil => simp
  | append_singleton l x _ => simp [List.getD_eq_getElem?_getD]

/-- C1: for every builder with a non-empty error sequence (whose entries are
the non-nil errors that `addError` was handed), whatever its other fields and
whatever the environment, `Dial` returns no client and the most recent build
error (the one `GetError` returns, a member of `GetErrors`); the world is left
as it was, so no transport dial is made. -/
theorem Dial_short_circuits_on_build_error (b : Builder) (env : Env) (w : World)
    (hne : b.GetErrors w ≠ []) (hval : none ∉ b.GetErrors w) :
    ∃ err, b.GetError w = some err ∧ some err ∈ b.GetErrors w ∧
      b.Dial env w = (w, (none, some err)) := by
  have hlast := GetError_eq_getLast b w
  obtain ⟨l, x, hx⟩ : ∃ l x, b.GetErrors w = l ++ [x] := by
    cases hl : b.GetErrors w using List.reverseRecOn with
    | nil => exact absurd hl hne
    | append_singleton l x _ => exact ⟨l, x, rfl⟩
  rw [hx] at hlast hval
  simp only [List.getLast?_append, List.getLast?_singleton, Option.or_some, Option.getD_some]
    at hlast
  cases x with
  | none => simp at hval
  | some err =>
    refine ⟨err, hlast, ?_, ?_⟩
    · rw [hx]; simp
    · unfold Builder.Dial
      rw [hlast]

/-- Witness for C1: the builder `New().WithDefaultAgent()` built without an agent
socket, dialled where the transport is up. -/
theorem Dial_short_circuits_on_build_error_witness :
    noAgent.2.GetErrors noAgent.1 ≠ [] ∧ none ∉ noAgent.2.GetErrors noAgent.1 ∧
    ∃ err, noAgent.2.GetError noAgent.1 = some err ∧ some err ∈ noAgent.2.GetErrors noAgent.1 ∧
      noAgent.2.Dial envUp noAgent.1 = (noAgent.1, (none, some err)) :=
  ⟨by decide, by decide,
    Dial_short_circuits_on_build_error noAgent.2 envUp noAgent.1 (by decide) (by decide)⟩

/-! ## C2: forks of one builder share backing arrays -/

/-- With spare capacity in the receiver's `authMethods`, two forks of one
builder write the same cell: after the second `WithPassword` the first fork
holds the second password. -/
theorem WithPassword_fork_shares_cell (b : Builder) (env env' : Env) (w : World) (p q : String)
    (hwf : b.authMethods.WF w.auths) (hspare : b.authMethods.len < b.authMethods.cap) :
    (b.WithPassword env w p).2.authMethods.read
        (b.WithPassword env' (b.WithPassword env w p).1 q).1.auths =
      b.authMethods.read w.auths ++ [some (AuthMethod.Password q)] := by
  obtain ⟨hlen, hcap⟩ := hwf
  have hp : b.authMethods.ptr < List.length w.auths :=
    length_pos_of_getD w.auths b.authMethods.ptr (by omega)
  simp only [Builder.WithPassword, goAppend, if_pos hspare, Slice.read]
  rw [getD_set_self _ _ _ (by simpa using hp), getD_set_self _ _ _ hp, List.set_set]
  exact take_succ_set _ _ _ (by omega)

/-- C2 (the code at the failing input): with
`b = New().WithPassword("a").WithPassword("b").WithPassword("c")`,
`x = b.WithPassword("p")` holds a, b, c, p when it is returned, and holds
a, b, c, q once `y = b.WithPassword("q")` has been evaluated; `b` itself still
reads a, b, c.  Likewise for a builder with three recorded errors: the error
that fork `x` recorded is replaced by the error its sibling `y` records. -/
theorem fork_not_independent :
    (threePasswords.2.WithPassword envDown threePasswords.1 "p").2.authMethods.read
        (threePasswords.2.WithPassword envDown threePasswords.1 "p").1.auths =
      [some (.Password "a"), some (.Password "b"), some (.Password "c"),
       some (.Password "p")] ∧
    (threePasswords.2.WithPassword envDown threePasswords.1 "p").2.authMethods.read
        (threePasswords.2.WithPassword envDown
          (threePasswords.2.WithPassword envDown threePasswords.1 "p").1 "q").1.auths =
      [some (.Password "a"), some (.Password "b"), some (.Password "c"),
       some (.Password "q")] ∧
    threePasswords.2.authMethods.read
        (threePasswords.2.WithPassword envDown
          (threePasswords.2.WithPassword envDown threePasswords.1 "p").1 "q").1.auths =
      [some (.Password "a"), some (.Password "b"), some (.Password "c")] ∧
    (threeErrors.2.WithKnownHostsFiles envDown threeErrors.1 ["x"]).2.GetErrors
        (threeErrors.2.WithKnownHostsFiles envDown threeErrors.1 ["x"]).1 =
      [some (.errorString "open k1: no such file or directory"),
       some (.errorString "open k2: no such file or directory"),
       some (.errorString "open k3: no such file or directory"),
       some (.errorString "open x: no such file or directory")] ∧
    (threeErrors.2.WithKnownHostsFiles envDown threeErrors.1 ["x"]).2.GetErrors
        (threeErrors.2.WithKnownHostsFiles envDown
          (threeErrors.2.WithKnownHostsFiles envDown threeErrors.1 ["x"]).1 ["y"]).1 =
      [some (.errorString "open k1: no such file or directory"),
       some (.errorString "open k2: no such file or directory"),
       some (.errorString "open k3: no such file or directory"),
       some (.errorString "open y: no such file or directory")] := by
  decide

/-! ## C3: the endpoint `Dial` resolves -/

/-- C3 (counterexample): with the empty combined string,
`New().WithHost("example.org").WithHostPort("")` does not resolve to the
combined string but to `":0"`. -/
theorem WithHostPort_empty_not_endpoint :
    ((New.WithHost "example.org").WithHostPort "").dialHostPort ≠ "" ∧
    ((New.WithHost "example.org").WithHostPort "").dialHostPort = ":0" := by
  decide

/-- C3 (amended): for every builder and host `h`: for every non-empty combined
string `s`, `b.WithHost(h).WithHostPort(s)` resolves to exactly `s`; and for
every combined string `t`, `b.WithHostPort(t).WithHost(h)` resolves to `h`, a
colon and the separately held port, which `WithHostPort` reset to 0: `t` does
not contribute. -/
theorem endpoint_last_writer_wins (b : Builder) (h s t : String) (hs : s ≠ "") :
    ((b.WithHost h).WithHostPort s).dialHostPort = s ∧
    ((b.WithHostPort t).WithHost h).dialHostPort = h ++ ":0" ∧
    ((b.WithHostPort t).WithHost h).host = h ∧ ((b.WithHostPort t).WithHost h).port = 0 ∧
    ((b.WithHostPort t).WithHost h).hostPort = "" := by
  refine ⟨?_, ?_, rfl, rfl, rfl⟩
  · simp [Builder.dialHostPort, Builder.WithHost, Builder.WithHostPort, hs]
  · have h0 : fmtD 0 = "0" := by decide
    have hc : ":" ++ "0" = ":0" := by decide
    simp only [Builder.dialHostPort, Builder.WithHost, Builder.WithHostPort, if_true]
    rw [h0, String.append_assoc, hc]

/-- Witness for C3 (amended): host `example.org` and combined string
`127.0.0.1:2222` on `New()`. -/
theorem endpoint_last_writer_wins_witness :
    "127.0.0.1:2222" ≠ "" ∧
    ((New.WithHost "example.org").WithHostPort "127.0.0.1:2222").dialHostPort
      = "127.0.0.1:2222" ∧
    ((New.WithHostPort "").WithHost "example.org").dialHostPort
      = "example.org" ++ ":0" :=
  ⟨by decide,
    (endpoint_last_writer_wins New "example.org" "127.0.0.1:2222" "" (by decide)).1,
    (endpoint_last_writer_wins New "example.org" "127.0.0.1:2222" "" (by decide)).2.1⟩

/-! ## C4: a failing `WithKnownHostsFiles` -/

/-- C4: for every builder with error recording enabled and every file list on
which `knownhosts.New` fails with `err`, the result of `WithKnownHostsFiles`
has the host-key policy of the receiver, the receiver's error sequence followed
by exactly `err`, and the receiver's value in every field but `buildErrors`;
auth methods are as before.  `WithInsecureIgnoreHostKey` on that result sets
the accept-any-key policy and leaves the error sequence as it is. -/
theorem WithKnownHostsFiles_failure (b : Builder) (env : Env) (w : World) (khf : List String)
    (err : GoError) (hwf : b.buildErrors.WF w.errors) (hrec : b.ignoringErrors = false)
    (hfail : (env.knownhostsNew khf).2 = some err) :
    (b.WithKnownHostsFiles env w khf).2.hostKeyCallback = b.hostKeyCallback ∧
    (b.WithKnownHostsFiles env w khf).2.GetErrors (b.WithKnownHostsFiles env w khf).1 =
      b.GetErrors w ++ [some err] ∧
    (b.WithKnownHostsFiles env w khf).2 =
      { b with buildErrors := (b.WithKnownHostsFiles env w khf).2.buildErrors } ∧
    (b.WithKnownHostsFiles env w khf).2.authMethods.read (b.WithKnownHostsFiles env w khf).1.auths =
      b.authMethods.read w.auths ∧
    (b.WithKnownHostsFiles env w khf).2.WithInsecureIgnoreHostKey.hostKeyCallback =
      some HostKeyCallback.InsecureIgnoreHostKey ∧
    (b.WithKnownHostsFiles env w khf).2.WithInsecureIgnoreHostKey.GetErrors
      (b.WithKnownHostsFiles env w khf).1 = b.GetErrors w ++ [some err] := by
  have hget := addError_GetErrors b env
    { w with trace := w.trace ++ [Event.knownhostsNew khf] } (some err) hwf hrec
  rw [WithKnownHostsFiles_of_error b env w khf err hfail]
  rw [addError_recording _ _ _ _ hrec] at hget ⊢
  exact ⟨rfl, hget, rfl, rfl, rfl, hget⟩

/-- Witness for C4: `New().WithKnownHostsFiles("k1")` where the file does not
exist. -/
theorem WithKnownHostsFiles_failure_witness :
    New.buildErrors.WF World.empty.errors ∧ New.ignoringErrors = false ∧
    (envDown.knownhostsNew ["k1"]).2 =
      some (.errorString "open k1: no such file or directory") ∧
    (New.WithKnownHostsFiles envDown World.empty ["k1"]).2.GetErrors
        (New.WithKnownHostsFiles envDown World.empty ["k1"]).1 =
      New.GetErrors World.empty ++ [some (.errorString "open k1: no such file or directory")] :=
  ⟨by decide, rfl, by decide,
    (WithKnownHostsFiles_failure New envDown World.empty ["k1"]
      (.errorString "open k1: no such file or directory") (by decide) rfl (by decide)).2.1⟩

/-! ## C5: suspending and resuming error recording -/

theorem failure_ne_suspend_resume (op : Op) (env : Env) (hf : (op.failure env).isSome) :
    op ≠ .SuspendErrors ∧ op ≠ .ResumeErrors := by
  cases op <;> simp_all [Op.failure]

theorem recorded_suspended_failing (steps : List (Env × Op))
    (hall : ∀ s ∈ steps, (s.2.failure s.1).isSome) : recorded true steps = [] := by
  induction steps with
  | nil => rfl
  | cons step rest ih =>
    obtain ⟨env, op⟩ := step
    have hf := hall (env, op) (List.mem_cons_self _ _)
    obtain ⟨h1, h2⟩ := failure_ne_suspend_resume op env hf
    rw [recorded_cons _ _ _ _ h1 h2]
    have ih1 := ih (fun s hs => hall s (List.mem_cons_of_mem _ hs))
    cases hfe : op.failure env with
    | none => exact ih1
    | some err => simpa using ih1

theorem recorded_recording_failing (steps : List (Env × Op))
    (hall : ∀ s ∈ steps, (s.2.failure s.1).isSome) :
    (recorded false steps).map some = steps.map (fun s => s.2.failure s.1) := by
  induction steps with
  | nil => rfl
  | cons step rest ih =>
    obtain ⟨env, op⟩ := step
    have hf := hall (env, op) (List.mem_cons_self _ _)
    obtain ⟨h1, h2⟩ := failure_ne_suspend_resume op env hf
    rw [recorded_cons _ _ _ _ h1 h2]
    have ih1 := ih (fun s hs => hall s (List.mem_cons_of_mem _ hs))
    cases hfe : op.failure env with
    | none => simp [hfe] at hf
    | some err => simp [ih1, hfe]

/-- C5: for every builder `b`, a chain of failing calls applied to
`b.SuspendErrors()` leaves the error sequence equal to that of `b` (so its
length does not grow); after `ResumeErrors()` a further chain of failing calls
yields the error sequence of `b` followed by exactly the error of each of these
later calls, in order: one error per call, and none of the dropped ones. -/
theorem suspended_failures_dropped (b : Builder) (w : World) (sus res : List (Env × Op))
    (hwf : b.buildErrors.WF w.errors)
    (hsus : ∀ s ∈ sus, (s.2.failure s.1).isSome)
    (hres : ∀ s ∈ res, (s.2.failure s.1).isSome) :
    (runOps w b.SuspendErrors sus).2.GetErrors (runOps w b.SuspendErrors sus).1 =
      b.GetErrors w ∧
    ((runOps w b.SuspendErrors sus).2.GetErrors (runOps w b.SuspendErrors sus).1).length =
      (b.GetErrors w).length ∧
    (runOps (runOps w b.SuspendErrors sus).1 (runOps w b.SuspendErrors sus).2.ResumeErrors
        res).2.GetErrors
      (runOps (runOps w b.SuspendErrors sus).1 (runOps w b.SuspendErrors sus).2.ResumeErrors
        res).1 =
      b.GetErrors w ++ res.map (fun s => s.2.failure s.1) ∧
    (res.map (fun s => s.2.failure s.1)).length = res.length ∧
    none ∉ res.map (fun s => s.2.failure s.1) := by
  have hwf0 : b.SuspendErrors.buildErrors.WF w.errors := hwf
  obtain ⟨h1, hwf1⟩ := runOps_GetErrors sus w b.SuspendErrors hwf0
  have hrec0 : recorded b.SuspendErrors.ignoringErrors sus = [] :=
    recorded_suspended_failing sus hsus
  rw [hrec0] at h1
  have h1' : (runOps w b.SuspendErrors sus).2.GetErrors (runOps w b.SuspendErrors sus).1 =
      b.GetErrors w := by
    rw [h1]; simp [Builder.GetErrors, Builder.SuspendErrors]
  have hwf2 : (runOps w b.SuspendErrors sus).2.ResumeErrors.buildErrors.WF
      (runOps w b.SuspendErrors sus).1.errors := hwf1
  obtain ⟨h2, _⟩ := runOps_GetErrors res (runOps w b.SuspendErrors sus).1
    (runOps w b.SuspendErrors sus).2.ResumeErrors hwf2
  have hrec2 : (recorded (runOps w b.SuspendErrors sus).2.ResumeErrors.ignoringErrors res).map
      some = res.map (fun s => s.2.failure s.1) := recorded_recording_failing res hres
  refine ⟨h1', by rw [h1'], ?_, by simp, ?_⟩
  · rw [h2, hrec2]
    have : (runOps w b.SuspendErrors sus).2.ResumeErrors.GetErrors
        (runOps w b.SuspendErrors sus).1 =
        (runOps w b.SuspendErrors sus).2.GetErrors (runOps w b.SuspendErrors sus).1 := rfl
    rw [this, h1']
  · intro hmem
    obtain ⟨s, hs, hnone⟩ := List.mem_map.mp hmem
    have := hres s hs
    rw [hnone] at this
    simp at this

/-- Witness for C5: two failing calls under suspension, then two after
`ResumeErrors()`, from `New()`. -/
theorem suspended_failures_dropped_witness :
    New.buildErrors.WF World.empty.errors ∧
    (runOps (runOps World.empty New.SuspendErrors
        [(envDown, .WithKnownHostsFiles ["k1"]), (envDown, .WithDefaultAgent)]).1
      (runOps World.empty New.SuspendErrors
        [(envDown, .WithKnownHostsFiles ["k1"]), (envDown, .WithDefaultAgent)]).2.ResumeErrors
      [(envDown, .WithDefaultAgent), (envDown, .WithKnownHostsFiles ["k2"])]).2.GetErrors
      (runOps (runOps World.empty New.SuspendErrors
        [(envDown, .WithKnownHostsFiles ["k1"]), (envDown, .WithDefaultAgent)]).1
      (runOps World.empty New.SuspendErrors
        [(envDown, .WithKnownHostsFiles ["k1"]), (envDown, .WithDefaultAgent)]).2.ResumeErrors
      [(envDown, .WithDefaultAgent), (envDown, .WithKnownHostsFiles ["k2"])]).1 =
    New.GetErrors World.empty ++
      [(envDown, Op.WithDefaultAgent), (envDown, Op.WithKnownHostsFiles ["k2"])].map
        (fun s => s.2.failure s.1) :=
  ⟨by decide,
    (suspended_failures_dropped New World.empty
      [(envDown, .WithKnownHostsFiles ["k1"]), (envDown, .WithDefaultAgent)]
      [(envDown, .WithDefaultAgent), (envDown, .WithKnownHostsFiles ["k2"])]
      (by decide) (by intro s hs; simp at hs; rcases hs with rfl | rfl <;> decide)
      (by intro s hs; simp at hs; rcases hs with rfl | rfl <;> decide)).2.2.1⟩

/-! ## C6: `WithDefaultAgent` without an agent socket -/

/-- C6: for every builder with error recording enabled, when
`os.Getenv("SSH_AUTH_SOCK")` is the empty string (the variable is unset or
empty), `WithDefaultAgent` returns a builder whose error sequence is the
receiver's followed by exactly one error (that of `newAgent`), whose slice of
auth methods, and its contents, are the receiver's, and which differs from the
receiver in `buildErrors` only; the trace of external calls is unchanged, so
no agent connection is opened. -/
theorem WithDefaultAgent_without_socket (b : Builder) (env : Env) (w : World)
    (hwf : b.buildErrors.WF w.errors) (hrec : b.ignoringErrors = false)
    (hsock : env.getenv "SSH_AUTH_SOCK" = "") :
    (b.WithDefaultAgent env w).2.GetErrors (b.WithDefaultAgent env w).1 =
      b.GetErrors w ++ [some errNoSocket] ∧
    (b.WithDefaultAgent env w).2.authMethods = b.authMethods ∧
    (b.WithDefaultAgent env w).2.authMethods.read (b.WithDefaultAgent env w).1.auths =
      b.authMethods.read w.auths ∧
    (b.WithDefaultAgent env w).1.auths = w.auths ∧
    (b.WithDefaultAgent env w).2 =
      { b with buildErrors := (b.WithDefaultAgent env w).2.buildErrors } ∧
    (b.WithDefaultAgent env w).1.trace = w.trace := by
  have hget := addError_GetErrors b env w (some errNoSocket) hwf hrec
  have hstep : b.WithDefaultAgent env w = b.addError env w (some errNoSocket) := by
    unfold Builder.WithDefaultAgent
    rw [newAgent_no_socket env w hsock]
    rfl
  rw [hstep]
  rw [addError_recording _ _ _ _ hrec] at hget ⊢
  exact ⟨hget, rfl, rfl, rfl, rfl, rfl⟩

/-- Witness for C6: `WithDefaultAgent` without agent socket on a builder that
already holds three errors. -/
theorem WithDefaultAgent_without_socket_witness :
    threeErrors.2.buildErrors.WF threeErrors.1.errors ∧ threeErrors.2.ignoringErrors = false ∧
    envDown.getenv "SSH_AUTH_SOCK" = "" ∧
    (threeErrors.2.WithDefaultAgent envDown threeErrors.1).2.GetErrors
        (threeErrors.2.WithDefaultAgent envDown threeErrors.1).1 =
      threeErrors.2.GetErrors threeErrors.1 ++ [some errNoSocket] :=
  ⟨by decide, by decide, rfl,
    (WithDefaultAgent_without_socket threeErrors.2 envDown threeErrors.1
      (by decide) (by decide) rfl).1⟩

/-! ## C7, C8: what `Dial` hands to the transport and what it returns -/

theorem GetError_of_GetErrors_nil (b : Builder) (w : World) (hb : b.GetErrors w = []) :
    b.GetError w = none := by
  rw [GetError_eq_getLast, hb]; rfl

/-- `Dial` on a builder without build errors, in one equation. -/
theorem Dial_of_no_error (b : Builder) (env : Env) (w : World) (hb : b.GetErrors w = []) :
    b.Dial env w =
      ({ w with trace := w.trace ++ [Event.sshDial "tcp" b.dialHostPort (b.dialConfig w)] },
        match env.sshDial "tcp" b.dialHostPort (b.dialConfig w) with
        | (_, some err) => (none, some (errorfW "Failed to connect: " err))
        | (sshc, none) => (sshc, none)) := by
  unfold Builder.Dial
  rw [GetError_of_GetErrors_nil b w hb]
  simp only
  split <;> rfl

/-- C7: for every username `u`, non-empty endpoint `s` and password `p` the
builder `New().WithUsername(u).WithHostPort(s).WithInsecureIgnoreHostKey().WithPassword(p)`
has no build errors and `Dial` on it adds exactly one call to the trace:
`ssh.Dial("tcp", s, config)` with user `u`, the single auth method
`Password(p)` and the accept-any-key policy.  For every builder `b` without
build errors, `Dial` adds exactly one call `ssh.Dial("tcp", addr, config)`,
where `config` is (username, contents of `authMethods` in stored order,
host-key policy) and `addr` is `hostPort` if that is non-empty and otherwise
host, a colon, and the port in decimal. -/
theorem Dial_hands_configuration_to_transport (u s p : String) (env env' : Env) (w : World)
    (b : Builder) (wb : World) (hs : s ≠ "") (hb : b.GetErrors wb = []) :
    ((((New.WithUsername u).WithHostPort s).WithInsecureIgnoreHostKey).WithPassword env' w
        p).2.GetErrors
      ((((New.WithUsername u).WithHostPort s).WithInsecureIgnoreHostKey).WithPassword env' w
        p).1 = [] ∧
    (((((New.WithUsername u).WithHostPort s).WithInsecureIgnoreHostKey).WithPassword env' w
        p).2.Dial env
      ((((New.WithUsername u).WithHostPort s).WithInsecureIgnoreHostKey).WithPassword env' w
        p).1).1.trace =
      w.trace ++ [Event.sshDial "tcp" s
        { User := u, Auth := [some (AuthMethod.Password p)],
          HostKeyCallback := some HostKeyCallback.InsecureIgnoreHostKey }] ∧
    (b.Dial env wb).1.trace =
      wb.trace ++ [Event.sshDial "tcp"
        (if b.hostPort ≠ "" then b.hostPort else b.host ++ ":" ++ toString b.port)
        { User := b.username, Auth := b.authMethods.read wb.auths,
          HostKeyCallback := b.hostKeyCallback }] := by
  have hgen : ∀ (c : Builder) (wc : World), c.GetErrors wc = [] →
      (c.Dial env wc).1.trace =
        wc.trace ++ [Event.sshDial "tcp"
          (if c.hostPort ≠ "" then c.hostPort else c.host ++ ":" ++ toString c.port)
          { User := c.username, Auth := c.authMethods.read wc.auths,
            HostKeyCallback := c.hostKeyCallback }] := by
    intro c wc hc
    rw [Dial_of_no_error c env wc hc]
    simp only [Builder.dialHostPort, Builder.dialConfig, fmtD]
    by_cases hhp : c.hostPort = "" <;> simp [hhp]
  have hnil : ((((New.WithUsername u).WithHostPort s).WithInsecureIgnoreHostKey).WithPassword
      env' w p).2.GetErrors
      ((((New.WithUsername u).WithHostPort s).WithInsecureIgnoreHostKey).WithPassword env' w
        p).1 = [] := by
    simp [Builder.WithPassword, Builder.GetErrors, Builder.WithInsecureIgnoreHostKey,
      Builder.WithHostPort, Builder.WithUsername, New, Slice.nil, Slice.read]
  refine ⟨hnil, ?_, hgen b wb hb⟩
  rw [hgen _ _ hnil]
  have hread : ((((New.WithUsername u).WithHostPort s).WithInsecureIgnoreHostKey).WithPassword
      env' w p).2.authMethods.read
      ((((New.WithUsername u).WithHostPort s).WithInsecureIgnoreHostKey).WithPassword env' w
        p).1.auths = [some (AuthMethod.Password p)] := by
    have := goAppend_read env'.growslice w.auths Slice.nil (some (AuthMethod.Password p))
      (by simp [Slice.WF, Slice.nil])
    simpa [Slice.read, Slice.nil] using this
  rw [hread]
  simp [Builder.WithPassword, Builder.WithInsecureIgnoreHostKey, Builder.WithHostPort,
    Builder.WithUsername, New, hs]

/-- Witness for C7: the builder of `TestSudoRun`, with endpoint
`127.0.0.1:2222`. -/
theorem Dial_hands_configuration_to_transport_witness :
    "127.0.0.1:2222" ≠ "" ∧ New.GetErrors World.empty = [] ∧
    (((((New.WithUsername "testuser").WithHostPort "127.0.0.1:2222").WithInsecureIgnoreHostKey
        ).WithPassword envUp World.empty "pass word").2.Dial envUp
      ((((New.WithUsername "testuser").WithHostPort "127.0.0.1:2222").WithInsecureIgnoreHostKey
        ).WithPassword envUp World.empty "pass word").1).1.trace =
      World.empty.trace ++ [Event.sshDial "tcp" "127.0.0.1:2222"
        { User := "testuser", Auth := [some (AuthMethod.Password "pass word")],
          HostKeyCallback := some HostKeyCallback.InsecureIgnoreHostKey }] :=
  ⟨by decide, by decide,
    (Dial_hands_configuration_to_transport "testuser" "127.0.0.1:2222" "pass word" envUp envUp
      World.empty New World.empty (by decide) (by decide)).2.1⟩

/-- C8: for every builder without build errors, with `(c, e)` the pair that
`ssh.Dial` returns for the resolved endpoint and configuration: if `e` is an
error, `Dial` returns no client and the error `fmt.Errorf("Failed to connect: %w", e)`,
which unwraps to `e` and whose message is that of `e` after
`"Failed to connect: "`; if `e` is nil and `c` is a client, `Dial` returns `c`
and no error; unless the transport returned neither, `Dial` returns exactly one
of a client and an error; and the trace grows by exactly one `ssh.Dial`. -/
theorem Dial_transport_outcome (b : Builder) (env : Env) (w : World) (c : Option Client)
    (e : Option GoError) (hb : b.GetErrors w = [])
    (hres : env.sshDial "tcp" b.dialHostPort (b.dialConfig w) = (c, e)) :
    (∀ cause, e = some cause →
      (b.Dial env w).2 = (none, some (errorfW "Failed to connect: " cause)) ∧
      (errorfW "Failed to connect: " cause).Unwrap = some cause ∧
      (errorfW "Failed to connect: " cause).Error = "Failed to connect: " ++ cause.Error) ∧
    (∀ client, e = none → c = some client → (b.Dial env w).2 = (some client, none)) ∧
    ((c, e) ≠ (none, none) →
      ((b.Dial env w).2.1.isSome = true ∧ (b.Dial env w).2.2 = none) ∨
      ((b.Dial env w).2.1 = none ∧ (b.Dial env w).2.2.isSome = true)) ∧
    (b.Dial env w).1.trace =
      w.trace ++ [Event.sshDial "tcp" b.dialHostPort (b.dialConfig w)] := by
  rw [Dial_of_no_error b env w hb, hres]
  refine ⟨?_, ?_, ?_, rfl⟩
  · intro cause hc
    subst hc
    exact ⟨rfl, rfl, rfl⟩
  · intro client he hc
    subst he hc
    rfl
  · intro hne
    cases e with
    | some cause => exact Or.inr ⟨rfl, rfl⟩
    | none =>
      cases c with
      | none => exact absurd rfl hne
      | some client => exact Or.inl ⟨rfl, rfl⟩

/-- Witness for C8: `New().Dial()` where the transport refuses the connection. -/
theorem Dial_transport_outcome_witness :
    New.GetErrors World.empty = [] ∧
    envDown.sshDial "tcp" New.dialHostPort (New.dialConfig World.empty) =
      (none, some (.errorString "connection refused")) ∧
    (New.Dial envDown World.empty).2 =
      (none, some (errorfW "Failed to connect: " (.errorString "connection refused"))) :=
  ⟨by decide, rfl,
    ((Dial_transport_outcome New envDown World.empty none
      (some (.errorString "connection refused")) (by decide) rfl).1
      (.errorString "connection refused") rfl).1⟩

/-! ## C9: `GetErrors` and `GetError` -/

/-- C9: for every chain of configuration calls from `New()`, started in any
world, `GetErrors` on the result is the sequence of the errors of the calls
that failed while recording was enabled, in call order, and `GetError` is the
last of them (no error if there is none); the same holds for a chain from any
builder `b`, after the errors `b` already holds.  For every builder `GetError`
is the last element of `GetErrors`, or no error if `GetErrors` is empty.
`New()` has no errors, `GetError` returns no error on it, recording is enabled,
and a failing call on `New()` records exactly its error. -/
theorem GetErrors_reports_recorded (w : World) (steps : List (Env × Op)) (b : Builder)
    (hwf : b.buildErrors.WF w.errors) :
    (runOps w New steps).2.GetErrors (runOps w New steps).1 =
      (recorded false steps).map some ∧
    (runOps w New steps).2.GetError (runOps w New steps).1 = (recorded false steps).getLast? ∧
    (runOps w b steps).2.GetErrors (runOps w b steps).1 =
      b.GetErrors w ++ (recorded b.ignoringErrors steps).map some ∧
    b.GetError w = ((b.GetErrors w).getLast?).getD none ∧
    New.GetErrors w = [] ∧ New.GetError w = none ∧ New.ignoringErrors = false ∧
    (∀ env op err, Op.failure op env = some err →
      (op.apply env w New).2.GetErrors (op.apply env w New).1 = [some err]) := by
  have hnew : New.buildErrors.WF w.errors := (valid_New w).1.1
  have hnil : New.GetErrors w = [] := by simp [Builder.GetErrors, New, Slice.nil, Slice.read]
  have hchain : (runOps w New steps).2.GetErrors (runOps w New steps).1 =
      (recorded false steps).map some := by
    rw [(runOps_GetErrors steps w New hnew).1, hnil]; rfl
  refine ⟨hchain, ?_, (runOps_GetErrors steps w b hwf).1, GetError_eq_getLast b w, hnil,
    GetError_of_GetErrors_nil New w hnil, rfl, ?_⟩
  · rw [GetError_eq_getLast, hchain, List.getLast?_map]
    cases (recorded false steps).getLast? <;> rfl
  · intro env op err hf
    obtain ⟨h1, h2⟩ := failure_ne_suspend_resume op env (by rw [hf]; rfl)
    have := (apply_GetErrors op env w New hnew).1
    rw [this, hnil, recorded_cons _ _ _ _ h1 h2, hf]
    rfl

/-- Witness for C9: a chain with a suspended failure and a recorded one, from a
builder that already holds three errors. -/
theorem GetErrors_reports_recorded_witness :
    threeErrors.2.buildErrors.WF threeErrors.1.errors ∧
    (runOps threeErrors.1 threeErrors.2
        [(envDown, .SuspendErrors), (envDown, .WithDefaultAgent), (envDown, .ResumeErrors),
         (envDown, .WithKnownHostsFiles ["k4"])]).2.GetErrors
      (runOps threeErrors.1 threeErrors.2
        [(envDown, .SuspendErrors), (envDown, .WithDefaultAgent), (envDown, .ResumeErrors),
         (envDown, .WithKnownHostsFiles ["k4"])]).1 =
      threeErrors.2.GetErrors threeErrors.1 ++
        (recorded threeErrors.2.ignoringErrors
          [(envDown, .SuspendErrors), (envDown, .WithDefaultAgent), (envDown, .ResumeErrors),
           (envDown, .WithKnownHostsFiles ["k4"])]).map some :=
  ⟨by decide,
    (GetErrors_reports_recorded threeErrors.1
      [(envDown, .SuspendErrors), (envDown, .WithDefaultAgent), (envDown, .ResumeErrors),
       (envDown, .WithKnownHostsFiles ["k4"])] threeErrors.2 (by decide)).2.2.1⟩

/-! ## C10: the two endpoint representations -/

/-- Calls other than `WithHost`, `WithPort` and `WithHostPort` leave the three
endpoint fields and the username alone. -/
theorem apply_endpoint_frame (op : Op) (env : Env) (w : World) (b : Builder)
    (h1 : ∀ h, op ≠ .WithHost h) (h2 : ∀ p, op ≠ .WithPort p) (h3 : ∀ s, op ≠ .WithHostPort s) :
    (op.apply env w b).2.host = b.host ∧ (op.apply env w b).2.port = b.port ∧
    (op.apply env w b).2.hostPort = b.hostPort := by
  cases hf : op.failure env with
  | some err =>
    cases hign : b.ignoringErrors with
    | true => rw [(apply_failure_suspended op env w b err hf hign).2.1]; exact ⟨rfl, rfl, rfl⟩
    | false => rw [(apply_failure_recording op env w b err hf hign).2.1]; exact ⟨rfl, rfl, rfl⟩
  | none =>
    cases op with
    | WithDefaultAgent =>
      have h2 := newAgent_result env w World.empty
      unfold Op.failure at hf
      simp only at hf
      rw [← h2] at hf
      simp only [Op.apply]
      unfold Builder.WithDefaultAgent
      rcases hna : newAgent env w with ⟨w1, res⟩
      rw [hna] at hf
      cases res with
      | error e => simp at hf
      | ok a => exact ⟨rfl, rfl, rfl⟩
    | WithKnownHostsFiles khf =>
      simp only [Op.apply]
      rw [WithKnownHostsFiles_of_ok b env w khf hf]
      exact ⟨rfl, rfl, rfl⟩
    | WithHost h => exact absurd rfl (h1 h)
    | WithPort p => exact absurd rfl (h2 p)
    | WithHostPort s => exact absurd rfl (h3 s)
    | _ => exact ⟨rfl, rfl, rfl⟩

/-- Every call keeps: a non-empty `hostPort` comes with empty `host` and port 0. -/
theorem apply_endpoint_exclusive (op : Op) (env : Env) (w : World) (b : Builder)
    (hinv : b.hostPort ≠ "" → b.host = "" ∧ b.port = 0) :
    (op.apply env w b).2.hostPort ≠ "" →
      (op.apply env w b).2.host = "" ∧ (op.apply env w b).2.port = 0 := by
  by_cases h1 : ∃ h, op = .WithHost h
  · obtain ⟨h, rfl⟩ := h1
    intro hne
    exact absurd rfl hne
  by_cases h2 : ∃ p, op = .WithPort p
  · obtain ⟨p, rfl⟩ := h2
    intro hne
    exact absurd rfl hne
  by_cases h3 : ∃ s, op = .WithHostPort s
  · obtain ⟨s, rfl⟩ := h3
    intro _
    exact ⟨rfl, rfl⟩
  obtain ⟨e1, e2, e3⟩ := apply_endpoint_frame op env w b
    (fun h hop => h1 ⟨h, hop⟩) (fun p hop => h2 ⟨p, hop⟩) (fun s hop => h3 ⟨s, hop⟩)
  rw [e1, e2, e3]
  exact hinv

/-- C10: for every builder obtained from `New()` by a finite chain of
configuration calls (in any world and environments), a non-empty `hostPort`
comes with an empty `host` and port 0; `WithHost` and `WithPort` each set
`hostPort` to the empty string, and `WithHostPort` sets `host` to the empty
string and `port` to 0. -/
theorem endpoint_forms_exclusive (w : World) (steps : List (Env × Op)) (b : Builder)
    (h s : String) (port : Int) (hhp : (runOps w New steps).2.hostPort ≠ "") :
    ((runOps w New steps).2.host = "" ∧ (runOps w New steps).2.port = 0) ∧
    (b.WithHost h).hostPort = "" ∧ (b.WithPort port).hostPort = "" ∧
    (b.WithHostPort s).host = "" ∧ (b.WithHostPort s).port = 0 := by
  have hchain : ∀ (steps : List (Env × Op)) (w : World) (c : Builder),
      (c.hostPort ≠ "" → c.host = "" ∧ c.port = 0) →
      (runOps w c steps).2.hostPort ≠ "" →
        (runOps w c steps).2.host = "" ∧ (runOps w c steps).2.port = 0 := by
    intro steps
    induction steps with
    | nil => intro w c hc; exact hc
    | cons step rest ih =>
      intro w c hc
      obtain ⟨env, op⟩ := step
      exact ih (op.apply env w c).1 (op.apply env w c).2 (apply_endpoint_exclusive op env w c hc)
  exact ⟨hchain steps w New (fun hne => absurd rfl hne) hhp, rfl, rfl, rfl, rfl⟩

/-- Witness for C10: a chain that sets host and port and then the combined
string. -/
theorem endpoint_forms_exclusive_witness :
    (runOps World.empty New
      [(envUp, .WithHost "example.org"), (envUp, .WithPort 22), (envUp, .WithDefaultAgent),
       (envUp, .WithHostPort "127.0.0.1:2222"), (envUp, .WithPassword "pass word")]).2.hostPort
      ≠ "" ∧
    (runOps World.empty New
      [(envUp, .WithHost "example.org"), (envUp, .WithPort 22), (envUp, .WithDefaultAgent),
       (envUp, .WithHostPort "127.0.0.1:2222"), (envUp, .WithPassword "pass word")]).2.host
      = "" ∧
    (runOps World.empty New
      [(envUp, .WithHost "example.org"), (envUp, .WithPort 22), (envUp, .WithDefaultAgent),
       (envUp, .WithHostPort "127.0.0.1:2222"), (envUp, .WithPassword "pass word")]).2.port
      = 0 :=
  ⟨by decide,
    (endpoint_forms_exclusive World.empty
      [(envUp, .WithHost "example.org"), (envUp, .WithPort 22), (envUp, .WithDefaultAgent),
       (envUp, .WithHostPort "127.0.0.1:2222"), (envUp, .WithPassword "pass word")]
      New "" "" 0 (by decide)).1⟩

/-! ## C11: the active host-key policy -/

/-- One call sets the host-key policy as `policyStep` says. -/
theorem apply_hostKeyCallback (op : Op) (env : Env) (w : World) (b : Builder) :
    (op.apply env w b).2.hostKeyCallback = policyStep b.hostKeyCallback env op := by
  cases op with
  | WithDefaultAgent =>
    simp only [Op.apply, policyStep]
    cases hf : Op.failure .WithDefaultAgent env with
    | none =>
      have h2 := newAgent_result env w World.empty
      unfold Op.failure at hf
      simp only at hf
      rw [← h2] at hf
      unfold Builder.WithDefaultAgent
      rcases hna : newAgent env w with ⟨w1, res⟩
      rw [hna] at hf
      cases res with
      | error e => simp at hf
      | ok a => rfl
    | some err =>
      rw [WithDefaultAgent_of_error b env w err hf]
      unfold Builder.addError
      split <;> rfl
  | WithKnownHostsFiles khf =>
    simp only [Op.apply, policyStep]
    cases hf : (env.knownhostsNew khf).2 with
    | none => rw [WithKnownHostsFiles_of_ok b env w khf hf]
    | some err =>
      rw [WithKnownHostsFiles_of_error b env w khf err hf]
      unfold Builder.addError
      split <;> rfl
  | _ => rfl

theorem runOps_hostKeyCallback (steps : List (Env × Op)) (w : World) (b : Builder) :
    (runOps w b steps).2.hostKeyCallback = policyAfter b.hostKeyCallback steps := by
  induction steps generalizing w b with
  | nil => rfl
  | cons step rest ih =>
    obtain ⟨env, op⟩ := step
    simp only [runOps, policyAfter]
    rw [ih, apply_hostKeyCallback]

theorem policyStep_insecure (policy : Option HostKeyCallback) (env : Env) (op : Op)
    (h : policyStep policy env op = some HostKeyCallback.InsecureIgnoreHostKey) :
    op = .WithInsecureIgnoreHostKey ∨
    (policy = some HostKeyCallback.InsecureIgnoreHostKey ∧
      ∀ khf, op = Op.WithKnownHostsFiles khf → (env.knownhostsNew khf).2 ≠ none) := by
  cases op with
  | WithInsecureIgnoreHostKey => exact Or.inl rfl
  | WithKnownHostsFiles khf =>
    right
    simp only [policyStep] at h
    cases hf : (env.knownhostsNew khf).2 with
    | some err =>
      rw [hf] at h
      refine ⟨h, ?_⟩
      intro khf' hk
      cases hk
      rw [hf]
      simp
    | none =>
      rw [hf] at h
      cases hk : (env.knownhostsNew khf).1 with
      | none => rw [hk] at h; simp at h
      | some k => rw [hk] at h; simp at h
  | _ =>
    right
    refine ⟨h, ?_⟩
    intro khf hk
    cases hk

theorem policyStep_keep (env : Env) (op : Op)
    (h : ∀ khf, op = Op.WithKnownHostsFiles khf → (env.knownhostsNew khf).2 ≠ none) :
    policyStep (some HostKeyCallback.InsecureIgnoreHostKey) env op =
      some HostKeyCallback.InsecureIgnoreHostKey := by
  cases op with
  | WithKnownHostsFiles khf =>
    simp only [policyStep]
    cases hf : (env.knownhostsNew khf).2 with
    | some err => rfl
    | none => exact absurd hf (h khf rfl)
  | _ => rfl

theorem policyAfter_keep (steps : List (Env × Op)) (h : noKnownHostsSet steps) :
    policyAfter (some HostKeyCallback.InsecureIgnoreHostKey) steps =
      some HostKeyCallback.InsecureIgnoreHostKey := by
  induction steps with
  | nil => rfl
  | cons step rest ih =>
    obtain ⟨env, op⟩ := step
    simp only [policyAfter]
    rw [policyStep_keep env op (fun khf hk => h (env, op) (List.mem_cons_self _ _) khf hk)]
    exact ih (fun s hs => h s (List.mem_cons_of_mem _ hs))

theorem policyAfter_append (policy : Option HostKeyCallback) (pre post : List (Env × Op)) :
    policyAfter policy (pre ++ post) = policyAfter (policyAfter policy pre) post := by
  induction pre generalizing policy with
  | nil => rfl
  | cons step rest ih =>
    obtain ⟨env, op⟩ := step
    simp only [List.cons_append, policyAfter]
    exact ih _

/-- The policy after a chain is accept-any-key exactly if it was so before and
no call set a known-hosts policy, or the chain has a
`WithInsecureIgnoreHostKey` after which no call set a known-hosts policy. -/
theorem policyAfter_insecure_iff (policy : Option HostKeyCallback) (steps : List (Env × Op)) :
    policyAfter policy steps = some HostKeyCallback.InsecureIgnoreHostKey ↔
      (policy = some HostKeyCallback.InsecureIgnoreHostKey ∧ noKnownHostsSet steps) ∨
      ∃ pre env post, steps = pre ++ (env, Op.WithInsecureIgnoreHostKey) :: post ∧
        noKnownHostsSet post := by
  constructor
  · intro h
    induction steps generalizing policy with
    | nil =>
      left
      exact ⟨h, fun s hs => absurd hs (List.not_mem_nil s)⟩
    | cons step rest ih =>
      obtain ⟨env, op⟩ := step
      simp only [policyAfter] at h
      rcases ih _ h with ⟨hp, hno⟩ | ⟨pre, env', post, hsplit, hno⟩
      · rcases policyStep_insecure policy env op hp with hop | ⟨hpol, hfail⟩
        · right
          exact ⟨[], env, rest, by rw [hop]; rfl, hno⟩
        · left
          refine ⟨hpol, ?_⟩
          intro s hs khf hk
          rcases List.mem_cons.mp hs with rfl | hs'
          · exact hfail khf hk
          · exact hno s hs' khf hk
      · right
        exact ⟨(env, op) :: pre, env', post, by rw [hsplit]; rfl, hno⟩
  · intro h
    rcases h with ⟨hp, hno⟩ | ⟨pre, env, post, hsplit, hno⟩
    · rw [hp]
      exact policyAfter_keep steps hno
    · rw [hsplit, policyAfter_append]
      simp only [policyAfter, policyStep]
      exact policyAfter_keep post hno

/-- C11: `New()` has no host-key policy; for every builder,
`WithInsecureIgnoreHostKey` yields the accept-any-key policy and a
`WithKnownHostsFiles` on which `knownhosts.New` returns callback `k` and no
error yields the policy `k`, whatever the receiver's policy was; for every
chain of configuration calls from `New()` the policy of the result is the last
one set (`policyAfter`), and it is accept-any-key if and only if the chain has
a `WithInsecureIgnoreHostKey` call with no successful `WithKnownHostsFiles`
after it. -/
theorem host_key_policy_is_last_set (w : World) (steps : List (Env × Op)) (b : Builder)
    (env : Env) (khf : List String) (k : KnownHosts)
    (hok : env.knownhostsNew khf = (some k, none)) :
    New.hostKeyCallback = none ∧
    b.WithInsecureIgnoreHostKey.hostKeyCallback = some HostKeyCallback.InsecureIgnoreHostKey ∧
    (b.WithKnownHostsFiles env w khf).2.hostKeyCallback = some (HostKeyCallback.knownhosts k) ∧
    (runOps w New steps).2.hostKeyCallback = policyAfter none steps ∧
    ((runOps w New steps).2.hostKeyCallback = some HostKeyCallback.InsecureIgnoreHostKey ↔
      ∃ pre env' post, steps = pre ++ (env', Op.WithInsecureIgnoreHostKey) :: post ∧
        noKnownHostsSet post) := by
  refine ⟨rfl, rfl, ?_, runOps_hostKeyCallback steps w New, ?_⟩
  · rw [WithKnownHostsFiles_of_ok b env w khf (by rw [hok]), hok]
    rfl
  · rw [runOps_hostKeyCallback steps w New, policyAfter_insecure_iff]
    constructor
    · intro h
      rcases h with ⟨hp, _⟩ | h
      · exact absurd hp (by simp [New])
      · exact h
    · intro h
      exact Or.inr h

/-- Witness for C11: `WithKnownHostsFiles` where the parser accepts, on a
builder whose policy was accept-any-key. -/
theorem host_key_policy_is_last_set_witness :
    envUp.knownhostsNew ["known_hosts"] = (some ⟨1⟩, none) ∧
    (New.WithInsecureIgnoreHostKey.WithKnownHostsFiles envUp World.empty
      ["known_hosts"]).2.hostKeyCallback = some (HostKeyCallback.knownhosts ⟨1⟩) :=
  ⟨rfl,
    (host_key_policy_is_last_set World.empty [] New.WithInsecureIgnoreHostKey envUp
      ["known_hosts"] ⟨1⟩ rfl).2.2.1⟩

/-! ## C12: auth methods keep their order -/

/-- One call: the auth methods of the result are the receiver's, followed by
at most one new method. -/
theorem apply_auths_read (op : Op) (env : Env) (w : World) (b : Builder)
    (hwf : b.authMethods.WF w.auths) :
    (∃ extra, (op.apply env w b).2.authMethods.read (op.apply env w b).1.auths =
      b.authMethods.read w.auths ++ extra ∧ extra.length ≤ 1) ∧
    (op.apply env w b).2.authMethods.WF (op.apply env w b).1.auths := by
  rcases apply_auths_cases op env w b with ⟨h1, h2⟩ | ⟨m, h1, h2⟩
  · rw [h1, h2]
    exact ⟨⟨[], by simp⟩, hwf⟩
  · rw [h1, h2]
    exact ⟨⟨[some m], goAppend_read _ _ _ _ hwf, by simp⟩,
      goAppend_WF _ env.growslice_fits _ _ _ hwf⟩

/-- A chain of calls: the auth methods of the result start with the
receiver's, in their order. -/
theorem runOps_auths_read (steps : List (Env × Op)) (w : World) (b : Builder)
    (hwf : b.authMethods.WF w.auths) :
    (∃ extra, (runOps w b steps).2.authMethods.read (runOps w b steps).1.auths =
      b.authMethods.read w.auths ++ extra) ∧
    (runOps w b steps).2.authMethods.WF (runOps w b steps).1.auths := by
  induction steps generalizing w b with
  | nil => exact ⟨⟨[], by simp [runOps]⟩, hwf⟩
  | cons step rest ih =>
    obtain ⟨env, op⟩ := step
    obtain ⟨⟨e1, h1, _⟩, hwf1⟩ := apply_auths_read op env w b hwf
    obtain ⟨⟨e2, h2⟩, hwf2⟩ := ih (op.apply env w b).1 (op.apply env w b).2 hwf1
    simp only [runOps]
    exact ⟨⟨e1 ++ e2, by rw [h2, h1, List.append_assoc]⟩, hwf2⟩

theorem WithPassword_read (b : Builder) (env : Env) (w : World) (p : String)
    (hwf : b.authMethods.WF w.auths) :
    (b.WithPassword env w p).2.authMethods.read (b.WithPassword env w p).1.auths =
      b.authMethods.read w.auths ++ [some (AuthMethod.Password p)] ∧
    (b.WithPassword env w p).2.authMethods.WF (b.WithPassword env w p).1.auths :=
  ⟨goAppend_read _ _ _ _ hwf, goAppend_WF _ env.growslice_fits _ _ _ hwf⟩

theorem passwordCalls_read (pws : List (Env × String)) (w : World) (b : Builder)
    (hwf : b.authMethods.WF w.auths) :
    (runOps w b (passwordCalls pws)).2.authMethods.read
        (runOps w b (passwordCalls pws)).1.auths =
      b.authMethods.read w.auths ++ pws.map (fun x => some (AuthMethod.Password x.2)) := by
  induction pws generalizing w b with
  | nil => simp [passwordCalls, runOps]
  | cons x rest ih =>
    obtain ⟨h1, hwf1⟩ := WithPassword_read b x.1 w x.2 hwf
    have h2 := ih (b.WithPassword x.1 w x.2).1 (b.WithPassword x.1 w x.2).2 hwf1
    simp only [passwordCalls, List.map_cons, runOps, Op.apply] at h2 ⊢
    rw [h2, h1, List.append_assoc]
    rfl

/-- C12: for every builder `b` and password `p`, the auth methods of
`b.WithPassword(p)` are those of `b`, in their order, followed by exactly the
method `Password(p)`; for every list of passwords p1..pn,
`New().WithPassword(p1)...WithPassword(pn)` holds exactly the n methods
`Password(p1)`, ..., `Password(pn)` in that order; and for every configuration
call, and every chain of them, the auth methods of the result start with those
of the receiver, unchanged and in their order (a single call adds at most one
method after them). -/
theorem auth_methods_keep_order (b : Builder) (env : Env) (w : World) (p : String)
    (pws : List (Env × String)) (op : Op) (steps : List (Env × Op))
    (hwf : b.authMethods.WF w.auths) :
    (b.WithPassword env w p).2.authMethods.read (b.WithPassword env w p).1.auths =
      b.authMethods.read w.auths ++ [some (AuthMethod.Password p)] ∧
    (runOps w New (passwordCalls pws)).2.authMethods.read
        (runOps w New (passwordCalls pws)).1.auths =
      pws.map (fun x => some (AuthMethod.Password x.2)) ∧
    ((runOps w New (passwordCalls pws)).2.authMethods.read
        (runOps w New (passwordCalls pws)).1.auths).length = pws.length ∧
    (∃ extra, (op.apply env w b).2.authMethods.read (op.apply env w b).1.auths =
      b.authMethods.read w.auths ++ extra ∧ extra.length ≤ 1) ∧
    (∃ extra, (runOps w b steps).2.authMethods.read (runOps w b steps).1.auths =
      b.authMethods.read w.auths ++ extra) := by
  have hnew : New.authMethods.WF w.auths := (valid_New w).1.2
  have hnil : New.authMethods.read w.auths = [] := by simp [New, Slice.nil, Slice.read]
  have hchain := passwordCalls_read pws w New hnew
  rw [hnil, List.nil_append] at hchain
  refine ⟨(WithPassword_read b env w p hwf).1, hchain, ?_, (apply_auths_read op env w b hwf).1,
    (runOps_auths_read steps w b hwf).1⟩
  rw [hchain, List.length_map]

/-- Witness for C12: a fourth password on the builder that holds three, where
`append` writes into the spare cell of the backing array. -/
theorem auth_methods_keep_order_witness :
    threePasswords.2.authMethods.WF threePasswords.1.auths ∧
    (threePasswords.2.WithPassword envUp threePasswords.1 "p").2.authMethods.read
        (threePasswords.2.WithPassword envUp threePasswords.1 "p").1.auths =
      threePasswords.2.authMethods.read threePasswords.1.auths ++
        [some (AuthMethod.Password "p")] :=
  ⟨by decide,
    (auth_methods_keep_order threePasswords.2 envUp threePasswords.1 "p" [] .WithDefaultAgent []
      (by decide)).1⟩

/-! ## C13: recorded errors are never removed -/

/-- With a non-empty error sequence of non-nil entries, `GetError` is an error
of the sequence and `Dial` returns it without touching the world. -/
theorem Dial_of_recorded_error (b : Builder) (env : Env) (w : World)
    (hne : b.GetErrors w ≠ []) (hval : none ∉ b.GetErrors w) :
    ∃ err, some err ∈ b.GetErrors w ∧ b.GetError w = some err ∧
      b.Dial env w = (w, (none, some err)) := by
  have hlast := GetError_eq_getLast b w
  obtain ⟨l, x, hx⟩ : ∃ l x, b.GetErrors w = l ++ [x] := by
    cases hl : b.GetErrors w using List.reverseRecOn with
    | nil => exact absurd hl hne
    | append_singleton l x _ => exact ⟨l, x, rfl⟩
  rw [hx] at hlast hval
  simp only [List.getLast?_append, List.getLast?_singleton, Option.or_some, Option.getD_some]
    at hlast
  cases x with
  | none => simp at hval
  | some err =>
    refine ⟨err, by rw [hx]; simp, hlast, ?_⟩
    unfold Builder.Dial
    rw [hlast]

/-- A call leaves the error sequence of its receiver as it was. -/
theorem apply_receiver_GetErrors (op : Op) (env : Env) (w : World) (b : Builder)
    (hwf : b.buildErrors.WF w.errors) : b.GetErrors (op.apply env w b).1 = b.GetErrors w := by
  unfold Builder.GetErrors
  rcases apply_errors_cases op env w b with ⟨h1, _⟩ | ⟨err, h1, _⟩
  · rw [h1]
  · rw [h1]
    exact goAppend_frame_read _ _ _ _ _ hwf (Or.inr (Or.inl (Nat.le_refl _)))

/-- C13: for every builder `b` and every configuration call (`SuspendErrors`
and `ResumeErrors` among them), and for every chain of calls, the error
sequence of the result is that of `b` followed by further entries, so the
sequence of `b` is kept as an initial segment (and `b` itself still reads the
same sequence after the call); `SuspendErrors` leaves the sequence as it is.  If `b` holds at least one error (its entries being the
non-nil errors `addError` was handed), then `Dial` on the result of every chain
of further calls returns no client and a build error of that result, and
leaves the world, with its trace of external calls, unchanged: the transport
is not invoked. -/
theorem recorded_errors_never_removed (b : Builder) (w : World) (env env' : Env) (op : Op)
    (steps : List (Env × Op)) (hwf : b.buildErrors.WF w.errors)
    (hne : b.GetErrors w ≠ []) (hval : none ∉ b.GetErrors w) :
    (∃ extra, (op.apply env w b).2.GetErrors (op.apply env w b).1 = b.GetErrors w ++ extra) ∧
    b.GetErrors (op.apply env w b).1 = b.GetErrors w ∧
    (∃ extra, (runOps w b steps).2.GetErrors (runOps w b steps).1 = b.GetErrors w ++ extra) ∧
    b.SuspendErrors.GetErrors w = b.GetErrors w ∧
    b.ResumeErrors.GetErrors w = b.GetErrors w ∧
    ∃ err, some err ∈ (runOps w b steps).2.GetErrors (runOps w b steps).1 ∧
      (runOps w b steps).2.Dial env' (runOps w b steps).1 =
        ((runOps w b steps).1, (none, some err)) ∧
      ((runOps w b steps).2.Dial env' (runOps w b steps).1).1.trace =
        (runOps w b steps).1.trace := by
  have hchain := (runOps_GetErrors steps w b hwf).1
  have hne' : (runOps w b steps).2.GetErrors (runOps w b steps).1 ≠ [] := by
    rw [hchain]
    intro h
    exact hne (List.append_eq_nil.mp h).1
  have hval' : none ∉ (runOps w b steps).2.GetErrors (runOps w b steps).1 := by
    rw [hchain]
    intro h
    rcases List.mem_append.mp h with h | h
    · exact hval h
    · simp at h
  obtain ⟨err, hmem, _, hdial⟩ :=
    Dial_of_recorded_error (runOps w b steps).2 env' (runOps w b steps).1 hne' hval'
  refine ⟨⟨_, (apply_GetErrors op env w b hwf).1⟩, apply_receiver_GetErrors op env w b hwf,
    ⟨_, hchain⟩, rfl, rfl, err, hmem, hdial, ?_⟩
  rw [hdial]

/-- Witness for C13: one recorded error, then `SuspendErrors`, a password, a
failing `WithKnownHostsFiles` and `ResumeErrors`; dialled where the transport
is up. -/
theorem recorded_errors_never_removed_witness :
    noAgent.2.buildErrors.WF noAgent.1.errors ∧ noAgent.2.GetErrors noAgent.1 ≠ [] ∧
    none ∉ noAgent.2.GetErrors noAgent.1 ∧
    ∃ err,
      some err ∈ (runOps noAgent.1 noAgent.2
        [(envUp, .SuspendErrors), (envUp, .WithPassword "p"),
         (envDown, .WithKnownHostsFiles ["k1"]), (envUp, .ResumeErrors)]).2.GetErrors
        (runOps noAgent.1 noAgent.2
        [(envUp, .SuspendErrors), (envUp, .WithPassword "p"),
         (envDown, .WithKnownHostsFiles ["k1"]), (envUp, .ResumeErrors)]).1 ∧
      (runOps noAgent.1 noAgent.2
        [(envUp, .SuspendErrors), (envUp, .WithPassword "p"),
         (envDown, .WithKnownHostsFiles ["k1"]), (envUp, .ResumeErrors)]).2.Dial envUp
        (runOps noAgent.1 noAgent.2
        [(envUp, .SuspendErrors), (envUp, .WithPassword "p"),
         (envDown, .WithKnownHostsFiles ["k1"]), (envUp, .ResumeErrors)]).1 =
      ((runOps noAgent.1 noAgent.2
        [(envUp, .SuspendErrors), (envUp, .WithPassword "p"),
         (envDown, .WithKnownHostsFiles ["k1"]), (envUp, .ResumeErrors)]).1, (none, some err)) ∧
      ((runOps noAgent.1 noAgent.2
        [(envUp, .SuspendErrors), (envUp, .WithPassword "p"),
         (envDown, .WithKnownHostsFiles ["k1"]), (envUp, .ResumeErrors)]).2.Dial envUp
        (runOps noAgent.1 noAgent.2
        [(envUp, .SuspendErrors), (envUp, .WithPassword "p"),
         (envDown, .WithKnownHostsFiles ["k1"]), (envUp, .ResumeErrors)]).1).1.trace =
      (runOps noAgent.1 noAgent.2
        [(envUp, .SuspendErrors), (envUp, .WithPassword "p"),
         (envDown, .WithKnownHostsFiles ["k1"]), (envUp, .ResumeErrors)]).1.trace :=
  ⟨by decide, by decide, by decide,
    (recorded_errors_never_removed noAgent.2 noAgent.1 envUp envUp .SuspendErrors
      [(envUp, .SuspendErrors), (envUp, .WithPassword "p"),
       (envDown, .WithKnownHostsFiles ["k1"]), (envUp, .ResumeErrors)]
      (by decide) (by decide) (by decide)).2.2.2.2.2⟩

/-! ## C14: each setter changes only its own fields -/

/-- C14: for every builder `b`: putting back the receiver's `username` into
`b.WithUsername(u)` gives `b`; putting back `host`, `port` and `hostPort` into
the result of `WithHost`, `WithPort` or `WithHostPort` gives `b`; putting back
`authMethods` into `b.WithPassword(p)` gives `b` (and the call leaves the heap
of errors and the trace alone); putting back `hostKeyCallback` into
`b.WithInsecureIgnoreHostKey()` gives `b`; putting back `ignoringErrors` into
`b.SuspendErrors()` or `b.ResumeErrors()` gives `b`.  None of these calls
changes the error sequence, and the endpoint setters keep the username, the
auth methods and the host-key policy. -/
theorem setters_change_only_their_fields (b : Builder) (env : Env) (w : World)
    (u h s p : String) (port : Int) :
    ({ b.WithUsername u with username := b.username } = b ∧
     { b.WithHost h with host := b.host, port := b.port, hostPort := b.hostPort } = b ∧
     { b.WithPort port with host := b.host, port := b.port, hostPort := b.hostPort } = b ∧
     { b.WithHostPort s with host := b.host, port := b.port, hostPort := b.hostPort } = b ∧
     { (b.WithPassword env w p).2 with authMethods := b.authMethods } = b ∧
     (b.WithPassword env w p).1.errors = w.errors ∧
     (b.WithPassword env w p).1.trace = w.trace ∧
     { b.WithInsecureIgnoreHostKey with hostKeyCallback := b.hostKeyCallback } = b ∧
     { b.SuspendErrors with ignoringErrors := b.ignoringErrors } = b ∧
     { b.ResumeErrors with ignoringErrors := b.ignoringErrors } = b) ∧
    ((b.WithUsername u).GetErrors w = b.GetErrors w ∧
     (b.WithHost h).GetErrors w = b.GetErrors w ∧
     (b.WithPort port).GetErrors w = b.GetErrors w ∧
     (b.WithHostPort s).GetErrors w = b.GetErrors w ∧
     (b.WithPassword env w p).2.GetErrors (b.WithPassword env w p).1 = b.GetErrors w ∧
     b.WithInsecureIgnoreHostKey.GetErrors w = b.GetErrors w ∧
     b.SuspendErrors.GetErrors w = b.GetErrors w ∧
     b.ResumeErrors.GetErrors w = b.GetErrors w) ∧
    ((b.WithHost h).username = b.username ∧
     (b.WithHost h).authMethods.read w.auths = b.authMethods.read w.auths ∧
     (b.WithHost h).hostKeyCallback = b.hostKeyCallback ∧
     (b.WithPort port).username = b.username ∧
     (b.WithPort port).authMethods.read w.auths = b.authMethods.read w.auths ∧
     (b.WithPort port).hostKeyCallback = b.hostKeyCallback ∧
     (b.WithHostPort s).username = b.username ∧
     (b.WithHostPort s).authMethods.read w.auths = b.authMethods.read w.auths ∧
     (b.WithHostPort s).hostKeyCallback = b.hostKeyCallback) :=
  ⟨⟨rfl, rfl, rfl, rfl, rfl, rfl, rfl, rfl, rfl, rfl⟩,
    ⟨rfl, rfl, rfl, rfl, rfl, rfl, rfl, rfl⟩,
    ⟨rfl, rfl, rfl, rfl, rfl, rfl, rfl, rfl, rfl⟩⟩

/-! ## C15: suspension is a flag -/

theorem iterate_SuspendErrors_ResumeErrors (b : Builder) (n : Nat) :
    (Builder.SuspendErrors^[n] b).ResumeErrors = b.ResumeErrors := by
  induction n with
  | zero => rfl
  | succ n ih =>
    rw [Function.iterate_succ_apply']
    exact ih

/-- C15: for every builder `b`, `SuspendErrors` and `ResumeErrors` are each
idempotent, `b.SuspendErrors().ResumeErrors()` equals `b.ResumeErrors()` and
`b.ResumeErrors().SuspendErrors()` equals `b.SuspendErrors()`; after any
number `n` of `SuspendErrors` calls a single `ResumeErrors` gives
`b.ResumeErrors()`, on which recording is enabled: a failing call made on it
appends exactly its error to the errors of `b`. -/
theorem suspension_is_a_flag (b : Builder) (n : Nat) (w : World) (env : Env) (op : Op)
    (err : GoError) (hwf : b.buildErrors.WF w.errors) (hf : op.failure env = some err) :
    b.SuspendErrors.SuspendErrors = b.SuspendErrors ∧
    b.ResumeErrors.ResumeErrors = b.ResumeErrors ∧
    b.SuspendErrors.ResumeErrors = b.ResumeErrors ∧
    b.ResumeErrors.SuspendErrors = b.SuspendErrors ∧
    (Builder.SuspendErrors^[n] b).ResumeErrors = b.ResumeErrors ∧
    (Builder.SuspendErrors^[n] b).ResumeErrors.ignoringErrors = false ∧
    (op.apply env w (Builder.SuspendErrors^[n] b).ResumeErrors).2.GetErrors
        (op.apply env w (Builder.SuspendErrors^[n] b).ResumeErrors).1 =
      b.GetErrors w ++ [some err] := by
  have hit := iterate_SuspendErrors_ResumeErrors b n
  refine ⟨rfl, rfl, rfl, rfl, hit, by rw [hit]; rfl, ?_⟩
  rw [hit]
  have hwf' : b.ResumeErrors.buildErrors.WF w.errors := hwf
  obtain ⟨h1, h2⟩ := failure_ne_suspend_resume op env (by rw [hf]; rfl)
  rw [(apply_GetErrors op env w b.ResumeErrors hwf').1, recorded_cons _ _ _ _ h1 h2, hf]
  rfl

/-- Witness for C15: three `SuspendErrors`, one `ResumeErrors`, then a
`WithDefaultAgent` without agent socket, on a builder that holds three
errors. -/
theorem suspension_is_a_flag_witness :
    threeErrors.2.buildErrors.WF threeErrors.1.errors ∧
    Op.failure .WithDefaultAgent envDown = some errNoSocket ∧
    (Op.apply .WithDefaultAgent envDown threeErrors.1
        (Builder.SuspendErrors^[3] threeErrors.2).ResumeErrors).2.GetErrors
      (Op.apply .WithDefaultAgent envDown threeErrors.1
        (Builder.SuspendErrors^[3] threeErrors.2).ResumeErrors).1 =
      threeErrors.2.GetErrors threeErrors.1 ++ [some errNoSocket] :=
  ⟨by decide, by decide,
    (suspension_is_a_flag threeErrors.2 3 threeErrors.1 envDown .WithDefaultAgent errNoSocket
      (by decide) (by decide)).2.2.2.2.2.2⟩

end Sshbuilder
